import Mathlib

/-!
Verification development for the todo-system repository (einargudnig/todo-system).

This file gives a shallow embedding of the reconciliation core of the
TypeScript sources:
  * `src/ts/src/taskwarrior.ts` — `runTask`, `findByExternalId`, `upsertTask`
  * the CLI sync helper (`syncSource`, stale detection, dependency linking,
    dry-run reporting)
  * `things-writer.ts` (`syncCompletionsToThings`) and `asana-writer.ts`
    (`syncCompletionsToAsana`)

The external Taskwarrior store is modelled as an in-memory list of records;
store commands (`task ... export`, `add`, `modify`, `annotate`, `done`) become
pure functions on that list, mirroring the exact command strings the code
builds.  Fallible external calls (search command exit statuses, completion
writers, the Ollama classifier, dependency-set store calls) are modelled with
explicit result data / failure oracles.
-/

namespace TodoSync

/-- `UpsertAction` from `types.ts`: `"created" | "updated" | "skipped"`. -/
inductive UpsertAction where
  | created
  | updated
  | skipped
deriving DecidableEq, Repr

/-- The two external-identity UDA fields: `things3_uuid` and `asana_gid`
(the literal `externalIdField` strings in the code). -/
inductive ExtField where
  | things3Uuid
  | asanaGid
deriving DecidableEq, Repr

/-- `TaskData` from `types.ts` (with the `parentAsanaGid` field that the
newer CLI (`syncSource`) and the Asana reader set on subtasks; optional
strings use `none` for JS `undefined`).  JS string truthiness (`""` falsy)
is modelled by `truthyVal` below. -/
structure TaskData where
  description : String
  things3_uuid : Option String := none
  asana_gid : Option String := none
  source : String := ""
  tags : List String := []
  project : Option String := none
  due : Option String := none
  priority : Option String := none
  annotations : List String := []
  parentAsanaGid : Option String := none
deriving DecidableEq, Repr

/-- Taskwarrior task statuses relevant to the sync logic. -/
inductive TStatus where
  | pending
  | waiting
  | completed
deriving DecidableEq, Repr

/-- One Taskwarrior task record as the store keeps it: the fields the sync
logic reads or writes (`uuid`, `status`, the mirrored task fields, the two
external-identity UDAs, the two synced-flag UDAs, and `depends`). -/
structure Rec where
  uuid : String
  status : TStatus
  description : String := ""
  project : Option String := none
  due : Option String := none
  priority : Option String := none
  tags : List String := []
  things3_uuid : Option String := none
  asana_gid : Option String := none
  source : String := ""
  things3_synced : Bool := false
  asana_synced : Bool := false
  depends : List String := []
  annotations : List String := []
deriving DecidableEq, Repr

/-- The in-memory model of the Taskwarrior store: the task records plus a
counter from which `task add` derives the next store-assigned uuid. -/
structure Store where
  recs : List Rec
  nextId : Nat := 0
deriving DecidableEq, Repr

/-- JS truthiness on an optional string: `undefined` and `""` are falsy. -/
def truthyVal : Option String → Option String
  | some s => if s = "" then none else some s
  | none => none

/-- Select the external-identity field of a `TaskData` (`taskData[externalIdField]`). -/
def tdGet (f : ExtField) (td : TaskData) : Option String :=
  match f with
  | .things3Uuid => td.things3_uuid
  | .asanaGid => td.asana_gid

/-- Select the external-identity field of a store record. -/
def recGet (f : ExtField) (r : Rec) : Option String :=
  match f with
  | .things3Uuid => r.things3_uuid
  | .asanaGid => r.asana_gid

/-- Whitespace-run squashing, as in the JS `t.replace(/\s+/g, "_")`: one `_`
per maximal whitespace run.  The boolean state records whether the previous
character was whitespace (so the rest of a run is dropped). -/
def squashAux : Bool → List Char → List Char
  | _, [] => []
  | inWs, c :: rest =>
    if c.isWhitespace then
      (if inWs then squashAux true rest else '_' :: squashAux true rest)
    else c :: squashAux false rest

/-- Replace every maximal whitespace run by a single underscore. -/
def squashChars (l : List Char) : List Char :=
  squashAux false l

/-- Tag normalization: `tag.replace(/\s+/g, "_")` (Taskwarrior forbids
whitespace inside tags). -/
def normTag (t : String) : String :=
  String.mk (squashChars t.data)

/-- Lexicographic less-or-equal on char lists by code point: the comparison
`Array.prototype.sort()` applies to the tag strings (default sort compares
strings as sequences of code units). -/
def clLe : List Char → List Char → Bool
  | [], _ => true
  | _ :: _, [] => false
  | a :: as, b :: bs =>
    if a.toNat < b.toNat then true
    else if b.toNat < a.toNat then false
    else clLe as bs

/-- The default JS string ordering, as a relation on `String`. -/
def strLe (a b : String) : Prop := clLe a.data b.data = true

instance : DecidableRel strLe := fun a b =>
  inferInstanceAs (Decidable (clLe a.data b.data = true))

theorem clLe_total : ∀ a b : List Char, clLe a b = true ∨ clLe b a = true
  | [], _ => Or.inl rfl
  | _ :: _, [] => Or.inr rfl
  | a :: as, b :: bs => by
    rcases Nat.lt_trichotomy a.toNat b.toNat with h | h | h
    · left
      simp [clLe, h]
    · rcases clLe_total as bs with ih | ih
      · left
        simp [clLe, h, ih]
      · right
        simp [clLe, h.symm, ih]
    · right
      simp [clLe, h]

theorem clLe_trans : ∀ a b c : List Char,
    clLe a b = true → clLe b c = true → clLe a c = true
  | [], _, _ => fun _ _ => rfl
  | _ :: _, [], _ => fun h1 _ => by simp [clLe] at h1
  | _ :: _, _ :: _, [] => fun _ h2 => by simp [clLe] at h2
  | a :: as, b :: bs, c :: cs => fun h1 h2 => by
    simp only [clLe] at h1 h2 ⊢
    split_ifs at h1 h2 ⊢ <;>
      first
      | rfl
      | omega
      | exact clLe_trans as bs cs h1 h2

theorem clLe_antisymm : ∀ a b : List Char,
    clLe a b = true → clLe b a = true → a = b
  | [], [] => fun _ _ => rfl
  | [], _ :: _ => fun _ h2 => by simp [clLe] at h2
  | _ :: _, [] => fun h1 _ => by simp [clLe] at h1
  | a :: as, b :: bs => fun h1 h2 => by
    simp only [clLe] at h1 h2
    by_cases hab : a.toNat < b.toNat
    · have hba : ¬ b.toNat < a.toNat := by omega
      rw [if_neg hba, if_pos hab] at h2
      simp at h2
    · by_cases hba : b.toNat < a.toNat
      · rw [if_neg hab, if_pos hba] at h1
        simp at h1
      · have hnat : a.toNat = b.toNat := by omega
        have hchar : a = b := Char.ext (UInt32.ext hnat)
        rw [if_neg hab, if_neg hba] at h1
        rw [if_neg hba, if_neg hab] at h2
        rw [hchar, clLe_antisymm as bs h1 h2]

instance : IsTotal String strLe := ⟨fun a b => clLe_total a.data b.data⟩

instance : IsTrans String strLe :=
  ⟨fun a b c h1 h2 => clLe_trans a.data b.data c.data h1 h2⟩

instance : IsAntisymm String strLe :=
  ⟨fun a b h1 h2 => by
    cases a
    cases b
    exact congrArg String.mk (clLe_antisymm _ _ h1 h2)⟩

/-- `Array.prototype.sort()` on a string array: ascending lexicographic sort.
The code compares tag arrays via `JSON.stringify(xs.sort())`, i.e. by equality
of the sorted lists. -/
def sortTags (l : List String) : List String :=
  List.insertionSort strLe l

/-- One entry of the `updates` payload that `upsertTask` passes to
`task <uuid> modify ...`. -/
inductive FieldUpd where
  | descr (s : String)
  | project (s : String)
  | due (s : String)
  | prio (s : String)
  | tags (l : List String)
deriving DecidableEq, Repr

/-- One `if (taskData.X && taskData.X !== existing.X) updates.push(...)` block
of `upsertTask` for an optional scalar field: compares only when the incoming
value is truthy. -/
def optChunk (o cur : Option String) (mk : String → FieldUpd) : List FieldUpd :=
  match o with
  | some p => if some p ≠ cur then [mk p] else []
  | none => []

/-- The change detection of `upsertTask` (taskwarrior.ts lines 81–112): each
scalar field is compared only when the incoming value is truthy, tags are
compared as sorted sanitized lists; returns the `updates` payload in the
field order of the code. -/
def diffUpdates (td : TaskData) (ex : Rec) : List FieldUpd :=
  (if td.description ≠ "" ∧ td.description ≠ ex.description then
    [FieldUpd.descr td.description] else [])
  ++ optChunk (truthyVal td.project) ex.project FieldUpd.project
  ++ optChunk (truthyVal td.due) ex.due FieldUpd.due
  ++ optChunk (truthyVal td.priority) ex.priority FieldUpd.prio
  ++ (let newTags := td.tags.map normTag
      if sortTags ex.tags ≠ sortTags newTags then [FieldUpd.tags newTags] else [])

/-- Apply one `modify` payload entry to a record (`description:`, `project:`,
`due:`, `priority:`, `tags:` set the respective Taskwarrior attributes). -/
def applyUpd (r : Rec) : FieldUpd → Rec
  | .descr s => { r with description := s }
  | .project s => { r with project := some s }
  | .due s => { r with due := some s }
  | .prio s => { r with priority := some s }
  | .tags l => { r with tags := l }

/-- `task <uuid> modify <updates>`: rewrite the record(s) with that uuid. -/
def modifyStore (s : Store) (uuid : String) (upds : List FieldUpd) : Store :=
  { s with recs := s.recs.map (fun r => if r.uuid = uuid then upds.foldl applyUpd r else r) }

/-- The uuid Taskwarrior reports for the `n`-th `task add` of the model. -/
def freshUuid (n : Nat) : String :=
  "tw-" ++ Nat.repr n

/-- The record built by the creation branch of `upsertTask` (taskwarrior.ts
lines 121–159): description, identity UDA, source, sanitized `+tag`s, the
truthy optional fields, and the post-create `annotate` calls (each non-blank
annotation trimmed and capped at 1000 characters). -/
def createRec (f : ExtField) (v : String) (td : TaskData) (uuid : String) : Rec :=
  { uuid := uuid
    status := .pending
    description := td.description
    things3_uuid := if f = .things3Uuid then some v else none
    asana_gid := if f = .asanaGid then some v else none
    source := td.source
    tags := td.tags.map normTag
    project := truthyVal td.project
    due := truthyVal td.due
    priority := truthyVal td.priority
    annotations :=
      (td.annotations.filter (fun n => n.trim ≠ "")).map (fun n => (n.trim).take 1000) }

/-- Result of one `upsertTask` call: the returned `[action, uuid]` pair, the
store after the call, the `modify` payload issued (empty if none), and
whether a `task add` was issued. -/
structure UpsertRes where
  action : UpsertAction
  uuid : String
  store : Store
  updates : List FieldUpd
  createdCall : Bool
deriving DecidableEq, Repr

/-- `upsertTask` after the identity search has produced `found`:
diff-and-modify on a match, create otherwise. -/
def upsertCore (f : ExtField) (v : String) (td : TaskData) (found : Option Rec)
    (s : Store) : UpsertRes :=
  match found with
  | some ex =>
    let upds := diffUpdates td ex
    if upds = [] then
      { action := .skipped, uuid := ex.uuid, store := s, updates := [], createdCall := false }
    else
      { action := .updated, uuid := ex.uuid, store := modifyStore s ex.uuid upds,
        updates := upds, createdCall := false }
  | none =>
    let u := freshUuid s.nextId
    { action := .created, uuid := u,
      store := { recs := s.recs ++ [createRec f v td u], nextId := s.nextId + 1 },
      updates := [], createdCall := true }

/-! ### The raw search layer (`runTask` / `findByExternalId`)

`runTask` shells out; exit status 1 means "no results" and its stdout is
returned, any other nonzero status rethrows.  `findByExternalId` runs the
pending search, then the waiting search, skipping blank and unparseable
output (`catch { continue }`) and empty result arrays. -/

/-- The parse-relevant shape of one search command's stdout: blank, non-blank
but not valid JSON, or a JSON array of task records. -/
inductive RawOut where
  | blank
  | malformed
  | parsed (ts : List Rec)
deriving DecidableEq, Repr

/-- One external `task ... export` invocation's outcome: exit status and stdout. -/
structure RawResp where
  status : Nat
  out : RawOut
deriving DecidableEq, Repr

/-- `runTask` (taskwarrior.ts lines 21–33) applied to a search command:
status 0 returns stdout, status 1 (no results) is caught and its stdout
returned, any other status rethrows. -/
def runTaskSearch (r : RawResp) : Except Unit RawOut :=
  if r.status = 0 then .ok r.out
  else if r.status = 1 then .ok r.out
  else .error ()

/-- The per-status body of the `findByExternalId` loop: blank output and
parse failures are skipped, an empty parsed array yields no match, a
non-empty one returns `tasks[0]`. -/
def interpSearch : RawOut → Option Rec
  | .blank => none
  | .malformed => none
  | .parsed [] => none
  | .parsed (t :: _) => some t

/-- `findByExternalId` over the raw pending/waiting search responses. -/
def findByExternalIdRaw (pres wres : RawResp) : Except Unit (Option Rec) := do
  let o1 ← runTaskSearch pres
  match interpSearch o1 with
  | some t => pure (some t)
  | none => do
    let o2 ← runTaskSearch wres
    pure (interpSearch o2)

/-- `upsertTask` with the identity search's raw command responses made
explicit: a search error propagates out of the upsert. -/
def upsertTaskRaw (f : ExtField) (v : String) (td : TaskData)
    (pres wres : RawResp) (s : Store) : Except Unit UpsertRes := do
  let found ← findByExternalIdRaw pres wres
  pure (upsertCore f v td found s)

/-- `status:<st> <udaName>:<value> export` against the in-memory store. -/
def searchStore (s : Store) (st : TStatus) (f : ExtField) (v : String) : List Rec :=
  s.recs.filter (fun r => r.status = st ∧ recGet f r = some v)

/-- Package an in-memory search result as the raw response the healthy store
produces (exit 0; blank stdout when nothing matched). -/
def respOf (recs : List Rec) : RawResp :=
  { status := 0, out := if recs.isEmpty then .blank else .parsed recs }

/-- `findByExternalId(udaName, value)` against the in-memory store: pending
search first, then waiting. -/
def findByExternalId (f : ExtField) (v : String) (s : Store) : Option Rec :=
  match findByExternalIdRaw (respOf (searchStore s .pending f v))
      (respOf (searchStore s .waiting f v)) with
  | .ok o => o
  | .error _ => none

/-- `upsertTask(externalIdField, externalId, taskData)` against the in-memory
store. -/
def upsertTask (f : ExtField) (v : String) (td : TaskData) (s : Store) : UpsertRes :=
  upsertCore f v td (findByExternalId f v s) s

/-! ### Basic lemmas about the search and diff layers -/

theorem findByExternalId_eq_match (f : ExtField) (v : String) (s : Store) :
    findByExternalId f v s =
      match searchStore s .pending f v with
      | t :: _ => some t
      | [] => (searchStore s .waiting f v).head? := by
  cases hp : searchStore s .pending f v <;> cases hw : searchStore s .waiting f v <;>
    simp [findByExternalId, findByExternalIdRaw, respOf, runTaskSearch, interpSearch,
      hp, hw, Bind.bind, Except.bind, Pure.pure, Except.pure]

theorem findByExternalId_none_iff (f : ExtField) (v : String) (s : Store) :
    findByExternalId f v s = none ↔
      searchStore s .pending f v = [] ∧ searchStore s .waiting f v = [] := by
  rw [findByExternalId_eq_match]
  cases hp : searchStore s .pending f v <;> cases hw : searchStore s .waiting f v <;> simp

/-- The external-identity UDA of a freshly created record is the searched value. -/
theorem recGet_createRec (f : ExtField) (v : String) (td : TaskData) (u : String) :
    recGet f (createRec f v td u) = some v := by
  cases f <;> rfl

theorem createRec_status (f : ExtField) (v : String) (td : TaskData) (u : String) :
    (createRec f v td u).status = .pending := rfl

theorem createRec_uuid (f : ExtField) (v : String) (td : TaskData) (u : String) :
    (createRec f v td u).uuid = u := rfl

theorem sortTags_perm (l : List String) : List.Perm (sortTags l) l :=
  List.perm_insertionSort _ l

theorem sortTags_sorted (l : List String) : List.Sorted strLe (sortTags l) :=
  List.sorted_insertionSort _ l

theorem sortTags_eq_iff {l l' : List String} :
    sortTags l = sortTags l' ↔ List.Perm l l' := by
  constructor
  · intro h
    exact (sortTags_perm l).symm.trans (h ▸ sortTags_perm l')
  · intro h
    exact List.eq_of_perm_of_sorted ((sortTags_perm l).trans (h.trans (sortTags_perm l').symm))
      (sortTags_sorted l) (sortTags_sorted l')

/-- Diffing a task against the very record its creation branch just built
finds no change. -/
theorem diffUpdates_createRec (f : ExtField) (v : String) (td : TaskData) (u : String) :
    diffUpdates td (createRec f v td u) = [] := by
  cases hp : truthyVal td.project <;> cases hd : truthyVal td.due <;>
    cases hpr : truthyVal td.priority <;>
    simp [diffUpdates, createRec, optChunk, hp, hd, hpr]

/-- The spec's change-detection contract on a matched record, stated from the
spec's words: each of `description`, `project`, `due`, `priority` agrees with
the local record whenever the incoming value is present (non-empty), and the
normalized incoming tags are a permutation of the local tags.  Zero difference
in this sense is what the spec calls `skipped`. -/
def specNoChange (td : TaskData) (ex : Rec) : Prop :=
  (td.description ≠ "" → td.description = ex.description) ∧
  (∀ p, truthyVal td.project = some p → ex.project = some p) ∧
  (∀ d, truthyVal td.due = some d → ex.due = some d) ∧
  (∀ p, truthyVal td.priority = some p → ex.priority = some p) ∧
  List.Perm (td.tags.map normTag) ex.tags

theorem ite_singleton_eq_nil {α : Type} (c : Prop) [Decidable c] (x : α) :
    ((if c then [x] else []) = []) ↔ ¬ c := by
  split <;> simp_all

theorem optChunk_nil_iff (o cur : Option String) (mk : String → FieldUpd) :
    (optChunk o cur mk = []) ↔ ∀ p, o = some p → cur = some p := by
  cases o with
  | none => simp [optChunk]
  | some p =>
    simp only [optChunk, ite_singleton_eq_nil, not_not, Option.some.injEq]
    constructor
    · intro h q hq
      cases hq
      exact h.symm
    · intro h
      exact (h p rfl).symm

theorem descrChunk_nil_iff (a b : String) :
    ((if a ≠ "" ∧ a ≠ b then [FieldUpd.descr a] else []) = []) ↔ (a ≠ "" → a = b) := by
  rw [ite_singleton_eq_nil]
  tauto

theorem tagsChunk_nil_iff (newTags exTags : List String) :
    ((if sortTags exTags ≠ sortTags newTags then [FieldUpd.tags newTags] else []) = []) ↔
      List.Perm newTags exTags := by
  rw [ite_singleton_eq_nil, not_not, sortTags_eq_iff]
  exact ⟨fun h => h.symm, fun h => h.symm⟩

theorem diffUpdates_nil_iff (td : TaskData) (ex : Rec) :
    diffUpdates td ex = [] ↔ specNoChange td ex := by
  unfold diffUpdates specNoChange
  rw [List.append_eq_nil, List.append_eq_nil, List.append_eq_nil, List.append_eq_nil,
    descrChunk_nil_iff, optChunk_nil_iff, optChunk_nil_iff, optChunk_nil_iff,
    tagsChunk_nil_iff]
  tauto

theorem mem_ite_singleton {α : Type} (c : Prop) [Decidable c] (x u : α) :
    (u ∈ (if c then [x] else [])) ↔ c ∧ u = x := by
  split <;> simp_all

theorem mem_optChunk_iff (o cur : Option String) (mk : String → FieldUpd) (u : FieldUpd) :
    u ∈ optChunk o cur mk ↔ ∃ p, o = some p ∧ some p ≠ cur ∧ u = mk p := by
  cases o with
  | none => simp [optChunk]
  | some p => simp [optChunk, mem_ite_singleton, and_comm]

/-- On a matched record `upsertTask` issues the diff as its only mutation:
`updated` exactly when the diff payload is non-empty, `skipped` (store
untouched) otherwise, always returning the matched record's uuid. -/
theorem upsert_found (f : ExtField) (v : String) (td : TaskData) (s : Store) (ex : Rec)
    (h : findByExternalId f v s = some ex) :
    (upsertTask f v td s).updates = diffUpdates td ex ∧
    (upsertTask f v td s).uuid = ex.uuid ∧
    (upsertTask f v td s).createdCall = false ∧
    ((upsertTask f v td s).action = .skipped ↔ diffUpdates td ex = []) ∧
    ((upsertTask f v td s).action = .updated ↔ diffUpdates td ex ≠ []) ∧
    (upsertTask f v td s).store =
      (if diffUpdates td ex = [] then s else modifyStore s ex.uuid (diffUpdates td ex)) := by
  rw [upsertTask, h]
  by_cases hd : diffUpdates td ex = [] <;> simp [upsertCore, hd]

/-! ### C1 — upsert idempotence -/

/-- C1.  Upsert idempotence: starting from a store in which the identity
`(f, v)` has no pending/waiting match, the first `upsertTask` call returns
`created` (issuing exactly one `task add`), and a second call with
byte-identical `TaskData` returns `skipped` with the same uuid, issues no
`add` and leaves the store unchanged — so at most one create is issued for
the identity. -/
theorem upsert_idempotent_created_then_skipped (f : ExtField) (v : String)
    (td : TaskData) (s : Store) (h : findByExternalId f v s = none) :
    (upsertTask f v td s).action = .created ∧
    (upsertTask f v td s).createdCall = true ∧
    (upsertTask f v td (upsertTask f v td s).store).action = .skipped ∧
    (upsertTask f v td (upsertTask f v td s).store).createdCall = false ∧
    (upsertTask f v td (upsertTask f v td s).store).uuid = (upsertTask f v td s).uuid ∧
    (upsertTask f v td (upsertTask f v td s).store).store = (upsertTask f v td s).store := by
  have hres : upsertTask f v td s =
      { action := .created, uuid := freshUuid s.nextId,
        store := ⟨s.recs ++ [createRec f v td (freshUuid s.nextId)], s.nextId + 1⟩,
        updates := [], createdCall := true } := by
    rw [upsertTask, h]
    rfl
  obtain ⟨hsp, hsw⟩ := (findByExternalId_none_iff f v s).mp h
  have hsearch : searchStore ⟨s.recs ++ [createRec f v td (freshUuid s.nextId)],
      s.nextId + 1⟩ .pending f v = [createRec f v td (freshUuid s.nextId)] := by
    unfold searchStore at hsp ⊢
    simp only at hsp ⊢
    rw [List.filter_append, hsp]
    simp [createRec_status, recGet_createRec]
  have hfind2 : findByExternalId f v ⟨s.recs ++ [createRec f v td (freshUuid s.nextId)],
      s.nextId + 1⟩ = some (createRec f v td (freshUuid s.nextId)) := by
    rw [findByExternalId_eq_match, hsearch]
  have hsecond := upsert_found f v td
    ⟨s.recs ++ [createRec f v td (freshUuid s.nextId)], s.nextId + 1⟩
    (createRec f v td (freshUuid s.nextId)) hfind2
  have hdiff := diffUpdates_createRec f v td (freshUuid s.nextId)
  refine ⟨by rw [hres], by rw [hres], ?_, ?_, ?_, ?_⟩
  · rw [hres]
    exact (hsecond.2.2.2.1).mpr hdiff
  · rw [hres]
    exact hsecond.2.2.1
  · rw [hres]
    exact hsecond.2.1
  · rw [hres]
    have h5 := hsecond.2.2.2.2.2
    rw [if_pos hdiff] at h5
    exact h5

/-- Witness for C1 at a concrete input: an empty store and the end-to-end
scenario task. -/
theorem upsert_idempotent_created_then_skipped_witness :
    findByExternalId .things3Uuid "t1" ⟨[], 0⟩ = none ∧
    ((upsertTask .things3Uuid "t1" { description := "Write report" } ⟨[], 0⟩).action
        = .created ∧
      (upsertTask .things3Uuid "t1" { description := "Write report" } ⟨[], 0⟩).createdCall
        = true ∧
      (upsertTask .things3Uuid "t1" { description := "Write report" }
        (upsertTask .things3Uuid "t1" { description := "Write report" } ⟨[], 0⟩).store).action
        = .skipped ∧
      (upsertTask .things3Uuid "t1" { description := "Write report" }
        (upsertTask .things3Uuid "t1" { description := "Write report" } ⟨[], 0⟩).store).createdCall
        = false ∧
      (upsertTask .things3Uuid "t1" { description := "Write report" }
        (upsertTask .things3Uuid "t1" { description := "Write report" } ⟨[], 0⟩).store).uuid
        = (upsertTask .things3Uuid "t1" { description := "Write report" } ⟨[], 0⟩).uuid ∧
      (upsertTask .things3Uuid "t1" { description := "Write report" }
        (upsertTask .things3Uuid "t1" { description := "Write report" } ⟨[], 0⟩).store).store
        = (upsertTask .things3Uuid "t1" { description := "Write report" } ⟨[], 0⟩).store) :=
  ⟨by decide, upsert_idempotent_created_then_skipped _ _ _ _ (by decide)⟩

/-! ### C6 — change detection -/

/-- C6 counterexample.  An incoming task whose tags `["my tag", "my_tag"]`
normalize to the same underlying set `{"my_tag"}` as the matched record's
tags `["my_tag"]` nonetheless triggers `updated` (with a tags mutation),
because the code compares sorted tag *lists* (multisets), not sets: the claim
"presenting `"my tag"` versus `"my_tag"` with an unchanged underlying set
never triggers `updated`" is false on the code. -/
theorem change_detection_tag_multiset_cex :
    (upsertTask .things3Uuid "ext-1"
      { description := "Existing task", tags := ["my tag", "my_tag"] }
      ⟨[{ uuid := "u1", status := .pending, description := "Existing task",
          tags := ["my_tag"], things3_uuid := some "ext-1" }], 0⟩).action
      = UpsertAction.updated ∧
    (upsertTask .things3Uuid "ext-1"
      { description := "Existing task", tags := ["my tag", "my_tag"] }
      ⟨[{ uuid := "u1", status := .pending, description := "Existing task",
          tags := ["my_tag"], things3_uuid := some "ext-1" }], 0⟩).updates
      = [FieldUpd.tags ["my_tag", "my_tag"]] ∧
    (["my tag", "my_tag"].map normTag).toFinset = (["my_tag"] : List String).toFinset := by
  refine ⟨by decide, by decide, by decide⟩

/-- C6 (amended).  Change detection on a matched record: `description`,
`project`, `due`, `priority` are compared by exact value equality whenever
the incoming value is present (non-empty), and tags by equality of the
sorted whitespace-normalized tag lists — i.e. as multisets, which coincides
with set equality when the normalized incoming tags are duplicate-free.
Any single differing comparison yields `updated` with a mutation carrying
exactly the changed fields; zero differing comparisons yield `skipped`; in
particular reordering tags or presenting `"my tag"` for `"my_tag"` never
triggers `updated` when the normalized multiset is unchanged. -/
theorem change_detection_amended (f : ExtField) (v : String) (td : TaskData)
    (s : Store) (ex : Rec) (h : findByExternalId f v s = some ex) :
    ((upsertTask f v td s).action = .skipped ↔ specNoChange td ex) ∧
    ((upsertTask f v td s).action = .updated ↔ ¬ specNoChange td ex) ∧
    (upsertTask f v td s).updates = diffUpdates td ex ∧
    (∀ p, FieldUpd.descr p ∈ (upsertTask f v td s).updates ↔
      (td.description ≠ "" ∧ td.description ≠ ex.description ∧ p = td.description)) ∧
    (∀ p, FieldUpd.project p ∈ (upsertTask f v td s).updates ↔
      (truthyVal td.project = some p ∧ some p ≠ ex.project)) ∧
    (∀ p, FieldUpd.due p ∈ (upsertTask f v td s).updates ↔
      (truthyVal td.due = some p ∧ some p ≠ ex.due)) ∧
    (∀ p, FieldUpd.prio p ∈ (upsertTask f v td s).updates ↔
      (truthyVal td.priority = some p ∧ some p ≠ ex.priority)) ∧
    (∀ l, FieldUpd.tags l ∈ (upsertTask f v td s).updates ↔
      (¬ List.Perm (td.tags.map normTag) ex.tags ∧ l = td.tags.map normTag)) := by
  obtain ⟨hupd, -, -, hskip, hupdated, -⟩ := upsert_found f v td s ex h
  have htagsne : (sortTags ex.tags ≠ sortTags (td.tags.map normTag)) ↔
      ¬ List.Perm (td.tags.map normTag) ex.tags := by
    rw [not_iff_not, sortTags_eq_iff]
    exact ⟨fun hs => hs.symm, fun hs => hs.symm⟩
  refine ⟨?_, ?_, hupd, ?_, ?_, ?_, ?_, ?_⟩
  · rw [hskip, diffUpdates_nil_iff]
  · rw [hupdated, ← diffUpdates_nil_iff]
  · intro p
    rw [hupd]
    simp only [diffUpdates, List.mem_append, mem_ite_singleton, mem_optChunk_iff]
    constructor
    · rintro ((((⟨hc, he⟩ | ⟨q, hq, hne, he⟩) | ⟨q, hq, hne, he⟩) | ⟨q, hq, hne, he⟩) | ⟨hc, he⟩) <;>
        first
        | (cases he; exact ⟨hc.1, hc.2, rfl⟩)
        | (cases he)
    · rintro ⟨h1, h2, rfl⟩
      exact Or.inl (Or.inl (Or.inl (Or.inl ⟨⟨h1, h2⟩, rfl⟩)))
  · intro p
    rw [hupd]
    simp only [diffUpdates, List.mem_append, mem_ite_singleton, mem_optChunk_iff]
    constructor
    · rintro ((((⟨hc, he⟩ | ⟨q, hq, hne, he⟩) | ⟨q, hq, hne, he⟩) | ⟨q, hq, hne, he⟩) | ⟨hc, he⟩) <;>
        first
        | (cases he; exact ⟨hq, hne⟩)
        | (cases he)
    · rintro ⟨h1, h2⟩
      exact Or.inl (Or.inl (Or.inl (Or.inr ⟨p, h1, h2, rfl⟩)))
  · intro p
    rw [hupd]
    simp only [diffUpdates, List.mem_append, mem_ite_singleton, mem_optChunk_iff]
    constructor
    · rintro ((((⟨hc, he⟩ | ⟨q, hq, hne, he⟩) | ⟨q, hq, hne, he⟩) | ⟨q, hq, hne, he⟩) | ⟨hc, he⟩) <;>
        first
        | (cases he; exact ⟨hq, hne⟩)
        | (cases he)
    · rintro ⟨h1, h2⟩
      exact Or.inl (Or.inl (Or.inr ⟨p, h1, h2, rfl⟩))
  · intro p
    rw [hupd]
    simp only [diffUpdates, List.mem_append, mem_ite_singleton, mem_optChunk_iff]
    constructor
    · rintro ((((⟨hc, he⟩ | ⟨q, hq, hne, he⟩) | ⟨q, hq, hne, he⟩) | ⟨q, hq, hne, he⟩) | ⟨hc, he⟩) <;>
        first
        | (cases he; exact ⟨hq, hne⟩)
        | (cases he)
    · rintro ⟨h1, h2⟩
      exact Or.inl (Or.inr ⟨p, h1, h2, rfl⟩)
  · intro l
    rw [hupd]
    simp only [diffUpdates, List.mem_append, mem_ite_singleton, mem_optChunk_iff]
    constructor
    · rintro ((((⟨hc, he⟩ | ⟨q, hq, hne, he⟩) | ⟨q, hq, hne, he⟩) | ⟨q, hq, hne, he⟩) | ⟨hc, he⟩) <;>
        first
        | (cases he; exact ⟨htagsne.mp hc, rfl⟩)
        | (cases he)
    · rintro ⟨h1, rfl⟩
      exact Or.inr ⟨htagsne.mpr h1, rfl⟩

/-- Concrete matched record for the C6 witness. -/
def rec9 : Rec :=
  { uuid := "u9", status := .pending, description := "T", tags := ["a"],
    things3_uuid := some "ext-9" }

/-- Concrete store for the C6 witness. -/
def st9 : Store := ⟨[rec9], 0⟩

/-- Concrete incoming task for the C6 witness. -/
def td9 : TaskData := { description := "T", tags := ["a"] }

/-- Witness for C6 (amended) at a concrete matched record. -/
theorem change_detection_amended_witness :
    findByExternalId .things3Uuid "ext-9" st9 = some rec9 ∧
    ((upsertTask .things3Uuid "ext-9" td9 st9).action = .skipped ↔
      specNoChange td9 rec9) :=
  ⟨by decide, (change_detection_amended .things3Uuid "ext-9" td9 st9 rec9 (by decide)).1⟩

/-! ### C10 — implicit field-clearing frame property -/

theorem foldl_applyUpd_project (upds : List FieldUpd)
    (hno : ∀ p, FieldUpd.project p ∉ upds) (r : Rec) :
    (upds.foldl applyUpd r).project = r.project := by
  induction upds generalizing r with
  | nil => rfl
  | cons u us ih =>
    have hno2 : ∀ p, FieldUpd.project p ∉ us := fun p hp => hno p (List.mem_cons_of_mem _ hp)
    rw [List.foldl_cons, ih hno2]
    cases u with
    | project q => exact absurd (List.mem_cons_self _ _) (hno q)
    | descr q => rfl
    | due q => rfl
    | prio q => rfl
    | tags l => rfl

theorem foldl_applyUpd_due (upds : List FieldUpd)
    (hno : ∀ p, FieldUpd.due p ∉ upds) (r : Rec) :
    (upds.foldl applyUpd r).due = r.due := by
  induction upds generalizing r with
  | nil => rfl
  | cons u us ih =>
    have hno2 : ∀ p, FieldUpd.due p ∉ us := fun p hp => hno p (List.mem_cons_of_mem _ hp)
    rw [List.foldl_cons, ih hno2]
    cases u with
    | due q => exact absurd (List.mem_cons_self _ _) (hno q)
    | descr q => rfl
    | project q => rfl
    | prio q => rfl
    | tags l => rfl

theorem foldl_applyUpd_priority (upds : List FieldUpd)
    (hno : ∀ p, FieldUpd.prio p ∉ upds) (r : Rec) :
    (upds.foldl applyUpd r).priority = r.priority := by
  induction upds generalizing r with
  | nil => rfl
  | cons u us ih =>
    have hno2 : ∀ p, FieldUpd.prio p ∉ us := fun p hp => hno p (List.mem_cons_of_mem _ hp)
    rw [List.foldl_cons, ih hno2]
    cases u with
    | prio q => exact absurd (List.mem_cons_self _ _) (hno q)
    | descr q => rfl
    | project q => rfl
    | due q => rfl
    | tags l => rfl

theorem foldl_applyUpd_descr (upds : List FieldUpd)
    (hno : ∀ p, FieldUpd.descr p ∉ upds) (r : Rec) :
    (upds.foldl applyUpd r).description = r.description := by
  induction upds generalizing r with
  | nil => rfl
  | cons u us ih =>
    have hno2 : ∀ p, FieldUpd.descr p ∉ us := fun p hp => hno p (List.mem_cons_of_mem _ hp)
    rw [List.foldl_cons, ih hno2]
    cases u with
    | descr q => exact absurd (List.mem_cons_self _ _) (hno q)
    | project q => rfl
    | due q => rfl
    | prio q => rfl
    | tags l => rfl

theorem forall₂_map_self {α : Type} {R : α → α → Prop} {g : α → α}
    (l : List α) (h : ∀ x ∈ l, R x (g x)) : List.Forall₂ R l (l.map g) := by
  induction l with
  | nil => exact List.Forall₂.nil
  | cons x xs ih =>
    exact List.Forall₂.cons (h x (by simp)) (ih fun y hy => h y (by simp [hy]))

theorem forall₂_same_of {α : Type} {R : α → α → Prop}
    (l : List α) (h : ∀ x ∈ l, R x x) : List.Forall₂ R l l := by
  induction l with
  | nil => exact List.Forall₂.nil
  | cons x xs ih =>
    exact List.Forall₂.cons (h x (by simp)) (ih fun y hy => h y (by simp [hy]))

theorem diff_no_project (td : TaskData) (ex : Rec)
    (hnone : truthyVal td.project = none) :
    ∀ p, FieldUpd.project p ∉ diffUpdates td ex := by
  intro p hp
  simp [diffUpdates, List.mem_append, mem_ite_singleton, mem_optChunk_iff, hnone] at hp

theorem diff_no_due (td : TaskData) (ex : Rec)
    (hnone : truthyVal td.due = none) :
    ∀ p, FieldUpd.due p ∉ diffUpdates td ex := by
  intro p hp
  simp [diffUpdates, List.mem_append, mem_ite_singleton, mem_optChunk_iff, hnone] at hp

theorem diff_no_prio (td : TaskData) (ex : Rec)
    (hnone : truthyVal td.priority = none) :
    ∀ p, FieldUpd.prio p ∉ diffUpdates td ex := by
  intro p hp
  simp [diffUpdates, List.mem_append, mem_ite_singleton, mem_optChunk_iff, hnone] at hp

theorem diff_no_descr (td : TaskData) (ex : Rec)
    (hempty : td.description = "") :
    ∀ p, FieldUpd.descr p ∉ diffUpdates td ex := by
  intro p hp
  simp [diffUpdates, List.mem_append, mem_ite_singleton, mem_optChunk_iff, hempty] at hp

/-- After an upsert on a matched record whose diff contains no update of a
given field, every store record keeps that field (the field-projection view
of `modifyStore`). -/
theorem upsert_store_preserves (f : ExtField) (v : String) (td : TaskData)
    (s : Store) (ex : Rec) (h : findByExternalId f v s = some ex)
    (proj : Rec → Option String)
    (hfold : ∀ r, proj ((diffUpdates td ex).foldl applyUpd r) = proj r) :
    List.Forall₂ (fun a b => proj a = proj b) s.recs (upsertTask f v td s).store.recs := by
  obtain ⟨-, -, -, -, -, hstore⟩ := upsert_found f v td s ex h
  rw [hstore]
  by_cases hd : diffUpdates td ex = []
  · rw [if_pos hd]
    exact forall₂_same_of _ (fun x _ => rfl)
  · rw [if_neg hd]
    unfold modifyStore
    apply forall₂_map_self
    intro r _
    by_cases hu : r.uuid = ex.uuid
    · rw [if_pos hu, hfold r]
    · rw [if_neg hu]

/-- C10.  Field-clearing frame property: on a matched record, an incoming
`CanonicalTask` field among description, project, due, priority that is
absent or empty produces no mutation entry for that field and leaves the
local value of that field unchanged on every store record; and if all
present fields agree (and the normalized tag multiset is unchanged), the
action is `skipped` and the store is untouched — an absent field alone
never turns `skipped` into `updated`. -/
theorem absent_field_frame (f : ExtField) (v : String) (td : TaskData)
    (s : Store) (ex : Rec) (h : findByExternalId f v s = some ex) :
    (truthyVal td.project = none →
      (∀ p, FieldUpd.project p ∉ (upsertTask f v td s).updates) ∧
      List.Forall₂ (fun a b => a.project = b.project) s.recs
        (upsertTask f v td s).store.recs) ∧
    (truthyVal td.due = none →
      (∀ p, FieldUpd.due p ∉ (upsertTask f v td s).updates) ∧
      List.Forall₂ (fun a b => a.due = b.due) s.recs
        (upsertTask f v td s).store.recs) ∧
    (truthyVal td.priority = none →
      (∀ p, FieldUpd.prio p ∉ (upsertTask f v td s).updates) ∧
      List.Forall₂ (fun a b => a.priority = b.priority) s.recs
        (upsertTask f v td s).store.recs) ∧
    (td.description = "" →
      (∀ p, FieldUpd.descr p ∉ (upsertTask f v td s).updates) ∧
      List.Forall₂ (fun a b => a.description = b.description) s.recs
        (upsertTask f v td s).store.recs) ∧
    (specNoChange td ex →
      (upsertTask f v td s).action = .skipped ∧ (upsertTask f v td s).store = s) := by
  obtain ⟨hupd, -, -, hskip, -, hstore⟩ := upsert_found f v td s ex h
  refine ⟨?_, ?_, ?_, ?_, ?_⟩
  · intro hnone
    refine ⟨fun p hp => diff_no_project td ex hnone p (hupd ▸ hp), ?_⟩
    exact upsert_store_preserves f v td s ex h Rec.project
      (fun r => foldl_applyUpd_project _ (diff_no_project td ex hnone) r)
  · intro hnone
    refine ⟨fun p hp => diff_no_due td ex hnone p (hupd ▸ hp), ?_⟩
    exact upsert_store_preserves f v td s ex h Rec.due
      (fun r => foldl_applyUpd_due _ (diff_no_due td ex hnone) r)
  · intro hnone
    refine ⟨fun p hp => diff_no_prio td ex hnone p (hupd ▸ hp), ?_⟩
    exact upsert_store_preserves f v td s ex h Rec.priority
      (fun r => foldl_applyUpd_priority _ (diff_no_prio td ex hnone) r)
  · intro hempty
    refine ⟨fun p hp => diff_no_descr td ex hempty p (hupd ▸ hp), ?_⟩
    have hpres := upsert_store_preserves f v td s ex h (fun r => some r.description)
      (fun r => by
        simp only []
        rw [foldl_applyUpd_descr _ (diff_no_descr td ex hempty) r])
    refine List.Forall₂.imp ?_ hpres
    intro a b hab
    exact Option.some.inj hab
  · intro hspec
    have hd := (diffUpdates_nil_iff td ex).mpr hspec
    refine ⟨hskip.mpr hd, ?_⟩
    rw [hstore, if_pos hd]

/-- Concrete matched record for the C10 witness. -/
def rec10 : Rec :=
  { uuid := "u10", status := .pending, description := "Keep", project := some "Work",
    due := some "2025-06-01", priority := some "M", tags := ["a"],
    things3_uuid := some "ext-10" }

/-- Concrete store for the C10 witness. -/
def st10 : Store := ⟨[rec10], 0⟩

/-- Concrete incoming task (project/due/priority all absent) for the C10 witness. -/
def td10 : TaskData := { description := "Keep", tags := ["a"] }

/-- Witness for C10 at a concrete input: incoming task clears nothing. -/
theorem absent_field_frame_witness :
    findByExternalId .things3Uuid "ext-10" st10 = some rec10 ∧
    (truthyVal td10.project = none →
      (∀ p, FieldUpd.project p ∉ (upsertTask .things3Uuid "ext-10" td10 st10).updates) ∧
      List.Forall₂ (fun a b => a.project = b.project) st10.recs
        (upsertTask .things3Uuid "ext-10" td10 st10).store.recs) :=
  ⟨by decide, (absent_field_frame .things3Uuid "ext-10" td10 st10 rec10 (by decide)).1⟩

/-! ### C8 — search fail-open -/

/-- C8 counterexample.  A store command failure (exit status 2) during the
pending identity search is *not* swallowed: `upsertTask` propagates the
error instead of treating it as "not found" and creating the task.  This
refutes the part of the claim saying any failure of the initial identity
search is swallowed. -/
theorem search_command_failure_propagates_cex :
    upsertTaskRaw .things3Uuid "ext-1" { description := "T" }
      ⟨2, .blank⟩ ⟨0, .blank⟩ ⟨[], 0⟩ = .error () := rfl

/-- C8 (amended).  The search layer of `upsertTask` is fail-open for
malformed or empty output: when both searches return exit status 0 or 1
(Taskwarrior's "no results") and their stdout parses to no task — blank,
invalid JSON, or an empty array — the upsert treats the identity as not
found and falls through to creation.  A search command failure with any
other exit status, however, propagates as an error for that task (from
either the pending or the waiting search). -/
theorem search_failopen_amended (f : ExtField) (v : String) (td : TaskData)
    (s : Store) (p w : RawResp) :
    ((p.status = 0 ∨ p.status = 1) → (w.status = 0 ∨ w.status = 1) →
      interpSearch p.out = none → interpSearch w.out = none →
      upsertTaskRaw f v td p w s = .ok (upsertCore f v td none s) ∧
      (upsertCore f v td none s).action = .created ∧
      (upsertCore f v td none s).createdCall = true) ∧
    (2 ≤ p.status → upsertTaskRaw f v td p w s = .error ()) ∧
    (p.status ≤ 1 → interpSearch p.out = none → 2 ≤ w.status →
      upsertTaskRaw f v td p w s = .error ()) := by
  refine ⟨?_, ?_, ?_⟩
  · rintro (hp | hp) (hw | hw) h1 h2 <;>
      exact ⟨by simp [upsertTaskRaw, findByExternalIdRaw, runTaskSearch, hp, hw, h1, h2,
          Bind.bind, Except.bind, Pure.pure, Except.pure], rfl, rfl⟩
  · intro hge
    have h0 : ¬ p.status = 0 := by omega
    have h1 : ¬ p.status = 1 := by omega
    simp [upsertTaskRaw, findByExternalIdRaw, runTaskSearch, h0, h1, Bind.bind, Except.bind]
  · intro hle h1 hge
    have hw0 : ¬ w.status = 0 := by omega
    have hw1 : ¬ w.status = 1 := by omega
    rcases Nat.le_one_iff_eq_zero_or_eq_one.mp hle with hp0 | hp1
    · simp [upsertTaskRaw, findByExternalIdRaw, runTaskSearch, hp0, h1, hw0, hw1,
        Bind.bind, Except.bind]
    · simp [upsertTaskRaw, findByExternalIdRaw, runTaskSearch, hp1, h1, hw0, hw1,
        Bind.bind, Except.bind]

/-- Witness for C8 (amended): malformed search output at both statuses falls
through to creation; a status-2 pending search propagates. -/
theorem search_failopen_amended_witness :
    (upsertTaskRaw .things3Uuid "w8" { description := "W" }
        ⟨1, .malformed⟩ ⟨1, .malformed⟩ ⟨[], 0⟩
      = .ok (upsertCore .things3Uuid "w8" { description := "W" } none ⟨[], 0⟩)) ∧
    (upsertTaskRaw .things3Uuid "w8" { description := "W" }
        ⟨3, .blank⟩ ⟨0, .blank⟩ ⟨[], 0⟩ = .error ()) :=
  ⟨((search_failopen_amended .things3Uuid "w8" { description := "W" } ⟨[], 0⟩
      ⟨1, .malformed⟩ ⟨1, .malformed⟩).1 (Or.inr rfl) (Or.inr rfl) rfl rfl).1,
    (search_failopen_amended .things3Uuid "w8" { description := "W" } ⟨[], 0⟩
      ⟨3, .blank⟩ ⟨0, .blank⟩).2.1 (by decide)⟩

/-! ### The sync cycle — `syncSource` of the CLI (fetch, classifier filter,
reconcile, dependency linking, stale detection, dry-run reporting) -/

/-- Association-list map with JS `Map.set` semantics: replace the value at an
existing key in place, else append at the end (JS `Map` preserves insertion
order). -/
def mapSet (m : List (String × String)) (k v : String) : List (String × String) :=
  if m.any (fun e => e.1 = k) then
    m.map (fun e => if e.1 = k then (k, v) else e)
  else m ++ [(k, v)]

/-- JS `Map.get`. -/
def mapGet (m : List (String × String)) (k : String) : Option String :=
  match m.find? (fun e => e.1 = k) with
  | some e => some e.2
  | none => none

/-- The external inputs of one `syncSource` run: the fetcher's outcome, the
Ollama flags and the classifier's per-task keep decision, a failure oracle
for the store's set-dependency command, and the dry-run flag. -/
structure SyncEnv where
  fetch : Except String (List TaskData)
  useOllama : Bool := false
  ollamaEnabled : Bool := true
  ollamaFails : Bool := false
  keep : TaskData → Bool := fun _ => true
  depFail : String → String → Bool := fun _ _ => false
  dryRun : Bool := false

/-- Everything one `syncSource` run produces: the final store, the action
counts, the run's IdentityIndex (`gidToUuid`), the successful dependency
calls, the stale completions (real run) or stale reports (dry run), and the
dry-run would-sync report. -/
structure SyncRes where
  store : Store
  fetchError : Bool := false
  created : Nat := 0
  updated : Nat := 0
  skipped : Nat := 0
  wouldSync : List String := []
  gidToUuid : List (String × String) := []
  linkCalls : List (String × String) := []
  linkedCount : Nat := 0
  staleCompleted : List (String × String) := []
  staleReported : List (String × String) := []
  staleCount : Nat := 0
deriving DecidableEq, Repr

/-- The `fetchedExternalIds` set: every truthy external id of the fetched
tasks, captured before classifier filtering (CLI lines 97–102). -/
def fetchedIdsOf (f : ExtField) (ts : List TaskData) : List String :=
  ts.filterMap (fun t => truthyVal (tdGet f t))

/-- Output of the reconcile loop: store, action counts, IdentityIndex. -/
structure RecOut where
  store : Store
  created : Nat
  updated : Nat
  skipped : Nat
  idMap : List (String × String)
deriving DecidableEq, Repr

/-- The reconcile loop of `syncSource` (lines 147–155): upsert each task with
a truthy external id, count the action, and record `externalId → uuid` in the
run's map when the returned uuid is truthy. -/
def reconcile (f : ExtField) : List TaskData → Store → List (String × String) → RecOut
  | [], s, m => ⟨s, 0, 0, 0, m⟩
  | td :: rest, s, m =>
    match truthyVal (tdGet f td) with
    | none => reconcile f rest s m
    | some v =>
      let r := upsertTask f v td s
      let m2 := if r.uuid = "" then m else mapSet m v r.uuid
      let out := reconcile f rest r.store m2
      { out with
        created := (if r.action = .created then 1 else 0) + out.created
        updated := (if r.action = .updated then 1 else 0) + out.updated
        skipped := (if r.action = .skipped then 1 else 0) + out.skipped }

/-- Modelled from the spec: `setDependency(childId, parentId)` — the store
boundary's set-dependency operation (imported from `taskwarrior.ts` by the
CLI, its body is not among the sources): add the parent to the child
record's `depends` attribute. -/
def setDependency (s : Store) (childUuid parentUuid : String) : Store :=
  { s with recs := s.recs.map (fun r =>
      if r.uuid = childUuid then { r with depends := r.depends ++ [parentUuid] } else r) }

/-- The dependency-linking loop of `syncSource` (lines 157–176): for each
task carrying a truthy `parentAsanaGid` and truthy child id, resolve both
through the run's map; if both resolve, call `setDependency` inside
`try { … } catch { /* non-fatal */ }` — a failing call adds no edge and is
not counted, and the loop continues.  Returns the store, the successful
calls in order, and `linkedCount`. -/
def linkPhase (f : ExtField) (depFail : String → String → Bool) :
    List TaskData → List (String × String) → Store →
      Store × List (String × String) × Nat
  | [], _, s => (s, [], 0)
  | td :: rest, m, s =>
    match truthyVal td.parentAsanaGid with
    | none => linkPhase f depFail rest m s
    | some p =>
      match truthyVal (tdGet f td) with
      | none => linkPhase f depFail rest m s
      | some c =>
        match mapGet m c, mapGet m p with
        | some cu, some pu =>
          if depFail cu pu then linkPhase f depFail rest m s
          else
            let out := linkPhase f depFail rest m (setDependency s cu pu)
            (out.1, (cu, pu) :: out.2.1, out.2.2 + 1)
        | some _, none => linkPhase f depFail rest m s
        | none, some _ => linkPhase f depFail rest m s
        | none, none => linkPhase f depFail rest m s

/-- Modelled from the spec: `findAllPendingBySource(externalIdField)` — the
spec's `listPendingByIdentityField` store scan (imported from
`taskwarrior.ts` by the CLI, its body is not among the sources; its unit
tests fix the behavior): a map external-identity → uuid built from the
pending records and then the waiting records that carry the field, records
without the field skipped. -/
def findAllPendingBySource (f : ExtField) (s : Store) : List (String × String) :=
  ((s.recs.filter (fun r => r.status = .pending)) ++
      (s.recs.filter (fun r => r.status = .waiting))).foldl
    (fun m r =>
      match truthyVal (recGet f r) with
      | some v => mapSet m v r.uuid
      | none => m) []

/-- Modelled from the spec: `completeTask(uuid)` — the store's mark-complete
operation, `task <uuid> done` (imported from `taskwarrior.ts` by the CLI,
its body is not among the sources; its unit test fixes the command): set the
record's status to completed. -/
def completeTask (s : Store) (uuid : String) : Store :=
  { s with recs := s.recs.map (fun r =>
      if r.uuid = uuid then { r with status := .completed } else r) }

/-- The stale-detection loop of `syncSource` (lines 188–208): every entry of
the pending-by-source map whose identity is absent from the pre-filter
fetched set is completed (or, in dry-run mode, only reported); `staleCount`
counts each stale entry. -/
def stalePhase (fetched : List String) (dryRun : Bool) :
    List (String × String) → Store → Store × List (String × String) × Nat
  | [], s => (s, [], 0)
  | e :: rest, s =>
    if fetched.contains e.1 then stalePhase fetched dryRun rest s
    else if dryRun then
      let out := stalePhase fetched dryRun rest s
      (out.1, e :: out.2.1, out.2.2 + 1)
    else
      let out := stalePhase fetched dryRun rest (completeTask s e.2)
      (out.1, e :: out.2.1, out.2.2 + 1)

/-- The classifier-filter step of `syncSource` (lines 104–126): when Ollama
filtering is requested and enabled and the call does not fail, keep exactly
the tasks the classifier accepts; otherwise keep everything (fail-open). -/
def postFilter (env : SyncEnv) (tasks0 : List TaskData) : List TaskData :=
  if env.useOllama && env.ollamaEnabled && !env.ollamaFails then
    tasks0.filter env.keep
  else tasks0

/-- `syncSource` (CLI lines 72–209): fetch (an error aborts the source's pull
and its stale detection), capture the pre-filter fetched-identity set,
optionally filter through the classifier (a classifier failure keeps every
task), then either dry-run-report or reconcile + link, and finally stale
detection against the pre-filter set. -/
def syncSource (f : ExtField) (env : SyncEnv) (s : Store) : SyncRes :=
  match env.fetch with
  | .error _ => { store := s, fetchError := true }
  | .ok tasks0 =>
    let fetched := fetchedIdsOf f tasks0
    let tasks := postFilter env tasks0
    if env.dryRun then
      let entries := findAllPendingBySource f s
      let st := stalePhase fetched true entries s
      { store := st.1, wouldSync := tasks.map (fun t => t.description),
        staleReported := st.2.1, staleCount := st.2.2 }
    else
      let ro := reconcile f tasks s []
      let lk := linkPhase f env.depFail tasks ro.idMap ro.store
      let entries := findAllPendingBySource f lk.1
      let st := stalePhase fetched false entries lk.1
      { store := st.1, created := ro.created, updated := ro.updated,
        skipped := ro.skipped, gidToUuid := ro.idMap, linkCalls := lk.2.1,
        linkedCount := lk.2.2, staleCompleted := st.2.1, staleCount := st.2.2 }

/-! ### The completion pushers (`things-writer.ts`, `asana-writer.ts`) -/

/-- The candidate set of a completion push: completed records carrying the
source's identity UDA (`task status:completed <field>.not: export`, then
filtered to entries with the uda and an end date). -/
def completedCandidates (f : ExtField) (s : Store) : List Rec :=
  s.recs.filter (fun r => r.status = .completed ∧ (truthyVal (recGet f r)).isSome)

/-- The external identity value a candidate is pushed with. -/
def extVal (f : ExtField) (r : Rec) : String :=
  (truthyVal (recGet f r)).getD ""

/-- The per-destination synced flag of a record. -/
def syncedFlag (f : ExtField) (r : Rec) : Bool :=
  match f with
  | .things3Uuid => r.things3_synced
  | .asanaGid => r.asana_synced

/-- `isAlreadySyncedToThings` / `isAlreadySyncedToAsana`: re-export the task
by uuid from the current store and read its synced UDA; any failure reads as
false. -/
def flagInStore (f : ExtField) (s : Store) (uuid : String) : Bool :=
  match s.recs.find? (fun r => r.uuid = uuid) with
  | some cur => syncedFlag f cur
  | none => false

/-- The per-record effect of `task <uuid> modify <field>_synced:true`: set
the destination's synced UDA on the record with the given uuid. -/
def markFn (f : ExtField) (uuid : String) (r : Rec) : Rec :=
  if r.uuid = uuid then
    (match f with
     | .things3Uuid => { r with things3_synced := true }
     | .asanaGid => { r with asana_synced := true })
  else r

/-- `markAsSyncedToThings` / `markAsSyncedToAsana`:
`task <uuid> modify <field>_synced:true`. -/
def markSynced (f : ExtField) (s : Store) (uuid : String) : Store :=
  { s with recs := s.recs.map (markFn f uuid) }

/-- Result of the Things 3 completion push: note there is no error counter,
and `aborted` records that an uncaught `completeInThings` exception ended the
loop early. -/
structure ThingsPush where
  store : Store
  synced : Nat
  skipped : Nat
  calls : List String
  aborted : Bool
deriving DecidableEq, Repr

/-- The `syncCompletionsToThings` loop (things-writer lines 115–138) over the
candidate list.  `fail u = true` models `completeInThings u` throwing; the
exception is not caught, so the loop aborts: the store keeps only the
mutations made so far and the remaining candidates are never examined. -/
def pushThingsGo (fail : String → Bool) : List Rec → Store → ThingsPush
  | [], s => ⟨s, 0, 0, [], false⟩
  | r :: rest, s =>
    if flagInStore .things3Uuid s r.uuid then
      let out := pushThingsGo fail rest s
      { out with skipped := out.skipped + 1 }
    else if fail (extVal .things3Uuid r) then
      ⟨s, 0, 0, [extVal .things3Uuid r], true⟩
    else
      let out := pushThingsGo fail rest (markSynced .things3Uuid s r.uuid)
      { out with synced := out.synced + 1, calls := extVal .things3Uuid r :: out.calls }

/-- `syncCompletionsToThings()`. -/
def syncCompletionsToThings (s : Store) (fail : String → Bool) : ThingsPush :=
  pushThingsGo fail (completedCandidates .things3Uuid s) s

/-- Result of the Asana completion push: `{ synced, skipped, errors }` plus
the store and the writer calls made. -/
structure AsanaPush where
  store : Store
  synced : Nat
  skipped : Nat
  errors : Nat
  calls : List String
deriving DecidableEq, Repr

/-- The `syncCompletionsToAsana` loop (asana-writer lines 102–127): a failing
`completeInAsana` call is caught, increments `errors`, leaves the synced flag
untouched, and the loop continues with the next candidate. -/
def pushAsanaGo (fail : String → Bool) : List Rec → Store → AsanaPush
  | [], s => ⟨s, 0, 0, 0, []⟩
  | r :: rest, s =>
    if flagInStore .asanaGid s r.uuid then
      let out := pushAsanaGo fail rest s
      { out with skipped := out.skipped + 1 }
    else if fail (extVal .asanaGid r) then
      let out := pushAsanaGo fail rest s
      { out with errors := out.errors + 1, calls := extVal .asanaGid r :: out.calls }
    else
      let out := pushAsanaGo fail rest (markSynced .asanaGid s r.uuid)
      { out with synced := out.synced + 1, calls := extVal .asanaGid r :: out.calls }

/-- `syncCompletionsToAsana()`. -/
def syncCompletionsToAsana (s : Store) (fail : String → Bool) : AsanaPush :=
  pushAsanaGo fail (completedCandidates .asanaGid s) s

/-- `dryRunPushThings()`: the candidates that would be completed — completed,
carrying a Things uuid, not yet flagged as synced.  No mutation happens. -/
def dryRunPushThings (s : Store) : List Rec :=
  (completedCandidates .things3Uuid s).filter
    (fun r => !(flagInStore .things3Uuid s r.uuid))

/-- `dryRunPushAsana()`: likewise for Asana. -/
def dryRunPushAsana (s : Store) : List Rec :=
  (completedCandidates .asanaGid s).filter
    (fun r => !(flagInStore .asanaGid s r.uuid))

/-! ### Skeleton preservation: reconcile and link never change a record's
uuid, status, or external-identity UDAs -/

/-- The fields of a record that reconciliation and linking never touch:
uuid, status, and the two identity UDAs. -/
def skelEq (a b : Rec) : Prop :=
  a.uuid = b.uuid ∧ a.status = b.status ∧
  a.things3_uuid = b.things3_uuid ∧ a.asana_gid = b.asana_gid

theorem skelEq_refl (a : Rec) : skelEq a a := ⟨rfl, rfl, rfl, rfl⟩

theorem skelEq_trans {a b c : Rec} (h1 : skelEq a b) (h2 : skelEq b c) : skelEq a c :=
  ⟨h1.1.trans h2.1, h1.2.1.trans h2.2.1, h1.2.2.1.trans h2.2.2.1, h1.2.2.2.trans h2.2.2.2⟩

theorem skelEq_recGet {a b : Rec} (h : skelEq a b) (f : ExtField) :
    recGet f a = recGet f b := by
  cases f
  · exact h.2.2.1
  · exact h.2.2.2

theorem forall₂_trans {α : Type} {R : α → α → Prop}
    (ht : ∀ a b c, R a b → R b c → R a c) :
    ∀ {l1 l2 l3 : List α}, List.Forall₂ R l1 l2 → List.Forall₂ R l2 l3 →
      List.Forall₂ R l1 l3 := by
  intro l1 l2 l3 h1 h2
  induction h1 generalizing l3 with
  | nil => cases h2; exact List.Forall₂.nil
  | cons hab htail ih =>
    cases h2 with
    | cons hbc htail2 => exact List.Forall₂.cons (ht _ _ _ hab hbc) (ih htail2)

theorem forall₂_append_split {α : Type} {R : α → α → Prop} :
    ∀ {a b c : List α}, List.Forall₂ R (a ++ b) c →
      ∃ c1 c2, c = c1 ++ c2 ∧ List.Forall₂ R a c1 ∧ List.Forall₂ R b c2 := by
  intro a
  induction a with
  | nil =>
    intro b c h
    exact ⟨[], c, rfl, List.Forall₂.nil, h⟩
  | cons x xs ih =>
    intro b c h
    cases h with
    | cons hx htail =>
      obtain ⟨c1, c2, rfl, h1, h2⟩ := ih htail
      exact ⟨_ :: c1, c2, rfl, List.Forall₂.cons hx h1, h2⟩

theorem forall₂_mem_right {α : Type} {R : α → α → Prop} :
    ∀ {l l' : List α}, List.Forall₂ R l l' → ∀ x ∈ l', ∃ y ∈ l, R y x := by
  intro l l' h
  induction h with
  | nil => intro x hx; cases hx
  | cons hab htail ih =>
    intro x hx
    rcases List.mem_cons.mp hx with rfl | hx2
    · exact ⟨_, List.mem_cons_self _ _, hab⟩
    · obtain ⟨y, hy, hr⟩ := ih x hx2
      exact ⟨y, List.mem_cons_of_mem _ hy, hr⟩

theorem forall₂_mem_left {α : Type} {R : α → α → Prop} :
    ∀ {l l' : List α}, List.Forall₂ R l l' → ∀ y ∈ l, ∃ x ∈ l', R y x := by
  intro l l' h
  induction h with
  | nil => intro y hy; cases hy
  | cons hab htail ih =>
    intro y hy
    rcases List.mem_cons.mp hy with rfl | hy2
    · exact ⟨_, List.mem_cons_self _ _, hab⟩
    · obtain ⟨x, hx, hr⟩ := ih y hy2
      exact ⟨x, List.mem_cons_of_mem _ hx, hr⟩

theorem forall₂_skel_trans {l1 l2 l3 : List Rec}
    (h1 : List.Forall₂ skelEq l1 l2) (h2 : List.Forall₂ skelEq l2 l3) :
    List.Forall₂ skelEq l1 l3 :=
  @forall₂_trans Rec skelEq (fun _ _ _ hab hbc => skelEq_trans hab hbc) l1 l2 l3 h1 h2

theorem applyUpd_skel (r : Rec) (u : FieldUpd) : skelEq r (applyUpd r u) := by
  cases u <;> exact ⟨rfl, rfl, rfl, rfl⟩

theorem foldl_applyUpd_skel (upds : List FieldUpd) (r : Rec) :
    skelEq r (upds.foldl applyUpd r) := by
  induction upds generalizing r with
  | nil => exact skelEq_refl r
  | cons u us ih =>
    rw [List.foldl_cons]
    exact skelEq_trans (applyUpd_skel r u) (ih (applyUpd r u))

/-- One upsert call decomposes the store into skeleton-preserved originals
plus (possibly) one created pending record carrying the upserted identity. -/
theorem upsert_skel (f : ExtField) (v : String) (td : TaskData) (s : Store) :
    ∃ pre news, (upsertTask f v td s).store.recs = pre ++ news ∧
      List.Forall₂ skelEq s.recs pre ∧
      ∀ x ∈ news, x.status = .pending ∧ recGet f x = some v := by
  unfold upsertTask
  cases hf : findByExternalId f v s with
  | none =>
    refine ⟨s.recs, [createRec f v td (freshUuid s.nextId)], rfl,
      forall₂_same_of _ (fun x _ => skelEq_refl x), ?_⟩
    intro x hx
    rcases List.mem_singleton.mp hx with rfl
    exact ⟨createRec_status f v td _, recGet_createRec f v td _⟩
  | some ex =>
    simp only [upsertCore]
    by_cases hd : diffUpdates td ex = []
    · rw [if_pos hd]
      exact ⟨s.recs, [], (List.append_nil _).symm,
        forall₂_same_of _ (fun x _ => skelEq_refl x), fun x hx => absurd hx (by simp)⟩
    · rw [if_neg hd]
      refine ⟨(modifyStore s ex.uuid (diffUpdates td ex)).recs, [],
        (List.append_nil _).symm, ?_, fun x hx => absurd hx (by simp)⟩
      unfold modifyStore
      apply forall₂_map_self
      intro r _
      by_cases hu : r.uuid = ex.uuid
      · rw [if_pos hu]
        exact foldl_applyUpd_skel _ r
      · rw [if_neg hu]
        exact skelEq_refl r

/-- The reconcile loop decomposes the store into skeleton-preserved originals
plus created pending records whose identities are among the processed tasks'
truthy ids. -/
theorem reconcile_skel (f : ExtField) :
    ∀ (ts : List TaskData) (s : Store) (m : List (String × String)),
      ∃ pre news, (reconcile f ts s m).store.recs = pre ++ news ∧
        List.Forall₂ skelEq s.recs pre ∧
        ∀ x ∈ news, x.status = .pending ∧
          ∃ v, recGet f x = some v ∧ v ∈ fetchedIdsOf f ts := by
  intro ts
  induction ts with
  | nil =>
    intro s m
    exact ⟨s.recs, [], (List.append_nil _).symm,
      forall₂_same_of _ (fun x _ => skelEq_refl x), fun x hx => absurd hx (by simp)⟩
  | cons td rest ih =>
    intro s m
    show ∃ pre news, (reconcile f (td :: rest) s m).store.recs = pre ++ news ∧ _
    rw [reconcile]
    cases htd : truthyVal (tdGet f td) with
    | none =>
      obtain ⟨pre, news, heq, hf2, hnews⟩ := ih s m
      refine ⟨pre, news, heq, hf2, ?_⟩
      intro x hx
      obtain ⟨hst, v, hget, hv⟩ := hnews x hx
      refine ⟨hst, v, hget, ?_⟩
      simp only [fetchedIdsOf, List.filterMap_cons, htd]
      simpa [fetchedIdsOf] using hv
    | some v =>
      obtain ⟨preU, newsU, hequ, hf2u, hnewsU⟩ := upsert_skel f v td s
      obtain ⟨pre2, news2, heq2, hf22, hnews2⟩ :=
        ih (upsertTask f v td s).store (if (upsertTask f v td s).uuid = "" then m
          else mapSet m v (upsertTask f v td s).uuid)
      rw [hequ] at hf22
      obtain ⟨p1, p2, rfl, hp1, hp2⟩ := forall₂_append_split hf22
      refine ⟨p1, p2 ++ news2, by simpa [List.append_assoc] using heq2,
        forall₂_skel_trans hf2u hp1, ?_⟩
      intro x hx
      rcases List.mem_append.mp hx with hx1 | hx2
      · obtain ⟨y, hy, hr⟩ := forall₂_mem_right hp2 x hx1
        obtain ⟨hst, hget⟩ := hnewsU y hy
        refine ⟨hr.2.1 ▸ hst, v, (skelEq_recGet hr f) ▸ hget, ?_⟩
        simp [fetchedIdsOf, htd]
      · obtain ⟨hst, w, hget, hw⟩ := hnews2 x hx2
        refine ⟨hst, w, hget, ?_⟩
        simp only [fetchedIdsOf, List.filterMap_cons, htd]
        exact List.mem_cons_of_mem _ (by simpa [fetchedIdsOf] using hw)

theorem setDependency_skel (s : Store) (cu pu : String) :
    List.Forall₂ skelEq s.recs (setDependency s cu pu).recs := by
  unfold setDependency
  apply forall₂_map_self
  intro r _
  by_cases hu : r.uuid = cu
  · rw [if_pos hu]
    exact ⟨rfl, rfl, rfl, rfl⟩
  · rw [if_neg hu]
    exact skelEq_refl r

/-- The dependency-linking loop only ever touches `depends`: skeletons are
preserved. -/
theorem linkPhase_skel (f : ExtField) (df : String → String → Bool) :
    ∀ (ts : List TaskData) (m : List (String × String)) (s : Store),
      List.Forall₂ skelEq s.recs (linkPhase f df ts m s).1.recs := by
  intro ts
  induction ts with
  | nil =>
    intro m s
    exact forall₂_same_of _ (fun x _ => skelEq_refl x)
  | cons td rest ih =>
    intro m s
    cases hp : truthyVal td.parentAsanaGid with
    | none =>
      have he : linkPhase f df (td :: rest) m s = linkPhase f df rest m s := by
        simp only [linkPhase, hp]
      rw [he]
      exact ih m s
    | some p =>
      cases hc : truthyVal (tdGet f td) with
      | none =>
        have he : linkPhase f df (td :: rest) m s = linkPhase f df rest m s := by
          simp only [linkPhase, hp, hc]
        rw [he]
        exact ih m s
      | some c =>
        cases hcu : mapGet m c with
        | none =>
          cases hpu : mapGet m p with
          | none =>
            have he : linkPhase f df (td :: rest) m s = linkPhase f df rest m s := by
              simp only [linkPhase, hp, hc, hcu, hpu]
            rw [he]
            exact ih m s
          | some pu =>
            have he : linkPhase f df (td :: rest) m s = linkPhase f df rest m s := by
              simp only [linkPhase, hp, hc, hcu, hpu]
            rw [he]
            exact ih m s
        | some cu =>
          cases hpu : mapGet m p with
          | none =>
            have he : linkPhase f df (td :: rest) m s = linkPhase f df rest m s := by
              simp only [linkPhase, hp, hc, hcu, hpu]
            rw [he]
            exact ih m s
          | some pu =>
            by_cases hdf : df cu pu = true
            · have he : linkPhase f df (td :: rest) m s = linkPhase f df rest m s := by
                simp only [linkPhase, hp, hc, hcu, hpu, hdf, if_true]
              rw [he]
              exact ih m s
            · have he : linkPhase f df (td :: rest) m s =
                  ((linkPhase f df rest m (setDependency s cu pu)).1,
                    (cu, pu) :: (linkPhase f df rest m (setDependency s cu pu)).2.1,
                    (linkPhase f df rest m (setDependency s cu pu)).2.2 + 1) := by
                simp only [linkPhase, hp, hc, hcu, hpu, hdf, Bool.false_eq_true, if_false]
              rw [he]
              exact forall₂_skel_trans (setDependency_skel s cu pu)
                (ih m (setDependency s cu pu))

/-- Mark a record completed when its uuid is among the stale targets. -/
def staleMark (targets : List String) (r : Rec) : Rec :=
  if r.uuid ∈ targets then { r with status := .completed } else r

/-- The identities and uuids of the stale entries, in order. -/
def staleTargets (fetched : List String) (entries : List (String × String)) :
    List String :=
  (entries.filter (fun e => !(fetched.contains e.1))).map Prod.snd

/-- The stale loop reports exactly the entries absent from the fetched set,
in order, in dry-run and real mode alike (`staleCount` counts them). -/
theorem stalePhase_report (fetched : List String) (dryRun : Bool) :
    ∀ (entries : List (String × String)) (s : Store),
      (stalePhase fetched dryRun entries s).2.1 =
        entries.filter (fun e => !(fetched.contains e.1)) ∧
      (stalePhase fetched dryRun entries s).2.2 =
        (entries.filter (fun e => !(fetched.contains e.1))).length := by
  intro entries
  induction entries with
  | nil => intro s; exact ⟨rfl, rfl⟩
  | cons e rest ih =>
    intro s
    by_cases hm : e.1 ∈ fetched <;>
      cases dryRun <;>
        simp [stalePhase, hm, List.filter_cons, (ih s).1, (ih s).2,
          (ih (completeTask s e.2)).1, (ih (completeTask s e.2)).2]

/-- The dry-run stale loop never mutates the store. -/
theorem stalePhase_dry_store (fetched : List String) :
    ∀ (entries : List (String × String)) (s : Store),
      (stalePhase fetched true entries s).1 = s := by
  intro entries
  induction entries with
  | nil => intro s; rfl
  | cons e rest ih =>
    intro s
    rw [stalePhase]
    by_cases hm : fetched.contains e.1
    · rw [if_pos hm]
      exact ih s
    · rw [if_neg hm]
      simpa using ih s

/-- The real stale loop completes exactly the records whose uuid is a stale
target. -/
theorem stalePhase_store (fetched : List String) :
    ∀ (entries : List (String × String)) (s : Store),
      (stalePhase fetched false entries s).1.recs =
        s.recs.map (staleMark (staleTargets fetched entries)) := by
  intro entries
  induction entries with
  | nil =>
    intro s
    simp only [stalePhase, staleTargets, List.filter_nil, List.map_nil]
    have : ∀ r ∈ s.recs, staleMark [] r = r := fun r _ => by simp [staleMark]
    rw [List.map_congr_left this]
    simp
  | cons e rest ih =>
    intro s
    by_cases hm : e.1 ∈ fetched
    · simp [stalePhase, hm, ih s, staleTargets, List.filter_cons]
    · simp only [stalePhase]
      rw [if_neg (by simpa using hm)]
      simp only [Bool.false_eq_true, if_false]
      rw [ih (completeTask s e.2)]
      unfold completeTask
      simp only [List.map_map]
      have htgt : staleTargets fetched (e :: rest) =
          e.2 :: staleTargets fetched rest := by
        simp [staleTargets, List.filter_cons, hm]
      rw [htgt]
      apply List.map_congr_left
      intro r _
      simp only [Function.comp_apply]
      by_cases hu : r.uuid = e.2
      · by_cases h2 : r.uuid ∈ staleTargets fetched rest <;>
          simp [staleMark, hu, h2, List.mem_cons]
      · by_cases h2 : r.uuid ∈ staleTargets fetched rest <;>
          simp [staleMark, hu, h2, List.mem_cons]

/-! ### The pending-by-source map over the post-reconcile store -/

/-- The (identity value, uuid) pairs a list of records feeds into the
pending-by-source map: one pair per record with a truthy identity UDA. -/
def carryPairs (f : ExtField) (l : List Rec) : List (String × String) :=
  l.filterMap (fun r => (truthyVal (recGet f r)).map (fun v => (v, r.uuid)))

/-- Fold `Map.set` over a pair list. -/
def buildMapFrom (m : List (String × String)) (ps : List (String × String)) :
    List (String × String) :=
  ps.foldl (fun m2 e => mapSet m2 e.1 e.2) m

/-- The pending records followed by the waiting records of a store. -/
def pwRecs (s : Store) : List Rec :=
  s.recs.filter (fun r => r.status = .pending) ++
    s.recs.filter (fun r => r.status = .waiting)

/-- The pending/waiting carry pairs of a store. -/
def pwCarry (f : ExtField) (s : Store) : List (String × String) :=
  carryPairs f (pwRecs s)

theorem truthyVal_some {o : Option String} {v : String}
    (h : truthyVal o = some v) : o = some v ∧ v ≠ "" := by
  cases o with
  | none => cases h
  | some w =>
    by_cases hw : w = ""
    · rw [truthyVal, if_pos hw] at h
      cases h
    · rw [truthyVal, if_neg hw] at h
      cases h
      exact ⟨rfl, hw⟩

theorem truthyVal_of_ne {v : String} (h : v ≠ "") : truthyVal (some v) = some v := by
  rw [truthyVal, if_neg h]

theorem findAllPendingBySource_eq (f : ExtField) (s : Store) :
    findAllPendingBySource f s = buildMapFrom [] (pwCarry f s) := by
  unfold findAllPendingBySource pwCarry pwRecs
  generalize (s.recs.filter (fun r => r.status = .pending) ++
    s.recs.filter (fun r => r.status = .waiting)) = l
  suffices h : ∀ (l : List Rec) (m : List (String × String)),
      l.foldl (fun m2 r =>
        match truthyVal (recGet f r) with
        | some v => mapSet m2 v r.uuid
        | none => m2) m = buildMapFrom m (carryPairs f l) by
    exact h l []
  intro l
  induction l with
  | nil => intro m; rfl
  | cons r rest ih =>
    intro m
    rw [List.foldl_cons]
    cases ht : truthyVal (recGet f r) with
    | none => simp [carryPairs, List.filterMap_cons, ht, ih, buildMapFrom]
    | some v => simp [carryPairs, List.filterMap_cons, ht, ih, buildMapFrom]

theorem mem_mapSet_sub {m : List (String × String)} {k v : String}
    {e : String × String} (h : e ∈ mapSet m k v) : e ∈ m ∨ e = (k, v) := by
  unfold mapSet at h
  split at h
  · obtain ⟨e2, he2, heq⟩ := List.mem_map.mp h
    by_cases hk : e2.1 = k
    · rw [if_pos hk] at heq
      exact Or.inr heq.symm
    · rw [if_neg hk] at heq
      exact Or.inl (heq ▸ he2)
  · rcases List.mem_append.mp h with h1 | h2
    · exact Or.inl h1
    · exact Or.inr (List.mem_singleton.mp h2)

theorem mapSet_mem_self (m : List (String × String)) (k v : String) :
    (k, v) ∈ mapSet m k v := by
  unfold mapSet
  split
  · rename_i h
    obtain ⟨e, he, hk⟩ := List.any_eq_true.mp h
    refine List.mem_map.mpr ⟨e, he, ?_⟩
    rw [if_pos (by simpa using hk)]
  · exact List.mem_append.mpr (Or.inr (List.mem_singleton.mpr rfl))

theorem mapSet_mem_of_ne {m : List (String × String)} {k v : String}
    {e : String × String} (he : e ∈ m) (hne : e.1 ≠ k) : e ∈ mapSet m k v := by
  unfold mapSet
  split
  · exact List.mem_map.mpr ⟨e, he, by rw [if_neg hne]⟩
  · exact List.mem_append.mpr (Or.inl he)

theorem buildMapFrom_mem_sub :
    ∀ (ps : List (String × String)) (m : List (String × String))
      (e : String × String), e ∈ buildMapFrom m ps → e ∈ m ∨ e ∈ ps := by
  intro ps
  induction ps with
  | nil => intro m e h; exact Or.inl h
  | cons q rest ih =>
    intro m e h
    rw [buildMapFrom, List.foldl_cons] at h
    rcases ih _ e h with h1 | h2
    · rcases mem_mapSet_sub h1 with h3 | h4
      · exact Or.inl h3
      · exact Or.inr (List.mem_cons.mpr (Or.inl (by rw [h4])))
    · exact Or.inr (List.mem_cons.mpr (Or.inr h2))

theorem buildMapFrom_key_val :
    ∀ (ps : List (String × String)) (m : List (String × String))
      (v u : String), ((v, u) ∈ m ∨ (v, u) ∈ ps) →
      (∀ e ∈ ps, e.1 = v → e.2 = u) → (v, u) ∈ buildMapFrom m ps := by
  intro ps
  induction ps with
  | nil =>
    intro m v u h _
    rcases h with h1 | h2
    · exact h1
    · cases h2
  | cons q rest ih =>
    intro m v u h hks
    rw [buildMapFrom, List.foldl_cons]
    by_cases hk : q.1 = v
    · have hq2 : q.2 = u := hks q (List.mem_cons_self _ _) hk
      refine ih _ v u (Or.inl ?_) (fun e he hk2 => hks e (List.mem_cons_of_mem _ he) hk2)
      rw [← hk, ← hq2]
      exact mapSet_mem_self m q.1 q.2
    · rcases h with h1 | h2
      · refine ih _ v u (Or.inl ?_) (fun e he hk2 => hks e (List.mem_cons_of_mem _ he) hk2)
        exact mapSet_mem_of_ne h1 (fun hv => hk (by rw [← hv]))
      · rcases List.mem_cons.mp h2 with h3 | h4
        · exact absurd (congrArg Prod.fst h3).symm hk
        · exact ih _ v u (Or.inr h4) (fun e he hk2 => hks e (List.mem_cons_of_mem _ he) hk2)

theorem mem_carryPairs {f : ExtField} {l : List Rec} {e : String × String}
    (h : e ∈ carryPairs f l) :
    ∃ r ∈ l, truthyVal (recGet f r) = some e.1 ∧ r.uuid = e.2 := by
  obtain ⟨r, hr, hmap⟩ := List.mem_filterMap.mp h
  cases ht : truthyVal (recGet f r) with
  | none =>
    rw [ht] at hmap
    cases hmap
  | some v =>
    rw [ht] at hmap
    cases hmap
    exact ⟨r, hr, ht, rfl⟩

theorem carryPairs_intro {f : ExtField} {l : List Rec} {r : Rec} {v : String}
    (hr : r ∈ l) (ht : truthyVal (recGet f r) = some v) :
    (v, r.uuid) ∈ carryPairs f l :=
  List.mem_filterMap.mpr ⟨r, hr, by rw [ht]; rfl⟩

/-- Skeleton equality transfers a status-filtered carry-pair list. -/
theorem f2_filter_carry {f : ExtField} {st : TStatus} :
    ∀ {l l' : List Rec}, List.Forall₂ skelEq l l' →
      carryPairs f (l'.filter (fun r => r.status = st)) =
        carryPairs f (l.filter (fun r => r.status = st)) := by
  intro l l' h
  induction h with
  | nil => rfl
  | cons hab htail ih =>
    rename_i a b as bs
    rw [List.filter_cons, List.filter_cons]
    by_cases hst : a.status = st
    · have hbst : b.status = st := by
        rw [← hab.2.1]
        exact hst
      rw [if_pos (by simpa using hbst), if_pos (by simpa using hst)]
      unfold carryPairs
      rw [List.filterMap_cons, List.filterMap_cons]
      rw [skelEq_recGet hab f, hab.1]
      unfold carryPairs at ih
      rw [ih]
    · have hbst : ¬ b.status = st := by
        rw [← hab.2.1]
        exact hst
      rw [if_neg (by simpa using hbst), if_neg (by simpa using hst)]
      exact ih

theorem nodup_keys_eq {ps : List (String × String)}
    (h : (ps.map Prod.fst).Nodup) :
    ∀ e1 ∈ ps, ∀ e2 ∈ ps, e1.1 = e2.1 → e1 = e2 := by
  induction ps with
  | nil => intro e1 h1; cases h1
  | cons q rest ih =>
    rw [List.map_cons, List.nodup_cons] at h
    intro e1 h1 e2 h2 hk
    rcases List.mem_cons.mp h1 with rfl | h1r
    · rcases List.mem_cons.mp h2 with rfl | h2r
      · rfl
      · exact absurd (hk ▸ List.mem_map_of_mem Prod.fst h2r) h.1
    · rcases List.mem_cons.mp h2 with rfl | h2r
      · exact absurd (hk ▸ List.mem_map_of_mem Prod.fst h1r) h.1
      · exact ih h.2 e1 h1r e2 h2r hk

theorem uuid_nodup_eq {l : List Rec} (h : (l.map Rec.uuid).Nodup) :
    ∀ r1 ∈ l, ∀ r2 ∈ l, r1.uuid = r2.uuid → r1 = r2 := by
  induction l with
  | nil => intro r1 h1; cases h1
  | cons q rest ih =>
    rw [List.map_cons, List.nodup_cons] at h
    intro r1 h1 r2 h2 hk
    rcases List.mem_cons.mp h1 with rfl | h1r
    · rcases List.mem_cons.mp h2 with rfl | h2r
      · rfl
      · exact absurd (hk ▸ List.mem_map_of_mem Rec.uuid h2r) h.1
    · rcases List.mem_cons.mp h2 with rfl | h2r
      · exact absurd (hk ▸ List.mem_map_of_mem Rec.uuid h1r) h.1
      · exact ih h.2 r1 h1r r2 h2r hk

theorem mem_staleTargets {fetched : List String}
    {entries : List (String × String)} {u : String} :
    u ∈ staleTargets fetched entries ↔
      ∃ e ∈ entries, ¬ e.1 ∈ fetched ∧ e.2 = u := by
  unfold staleTargets
  constructor
  · intro h
    obtain ⟨e, he, hu⟩ := List.mem_map.mp h
    have := List.mem_filter.mp he
    exact ⟨e, this.1, by simpa using this.2, hu⟩
  · rintro ⟨e, he, hf, rfl⟩
    exact List.mem_map_of_mem Prod.snd (List.mem_filter.mpr ⟨he, by simpa using hf⟩)

theorem mem_pwRecs {s : Store} {z : Rec} :
    z ∈ pwRecs s ↔ z ∈ s.recs ∧ (z.status = .pending ∨ z.status = .waiting) := by
  unfold pwRecs
  simp only [List.mem_append, List.mem_filter, decide_eq_true_eq]
  tauto

theorem mem_fetchedIdsOf_ne_empty {f : ExtField} {ts : List TaskData} {v : String}
    (h : v ∈ fetchedIdsOf f ts) : v ≠ "" := by
  obtain ⟨t, -, ht⟩ := List.mem_filterMap.mp h
  exact (truthyVal_some ht).2

theorem fetchedIdsOf_filter_sub {f : ExtField} {ts : List TaskData}
    {p : TaskData → Bool} {v : String}
    (h : v ∈ fetchedIdsOf f (ts.filter p)) : v ∈ fetchedIdsOf f ts := by
  obtain ⟨t, ht, htv⟩ := List.mem_filterMap.mp h
  exact List.mem_filterMap.mpr ⟨t, List.mem_of_mem_filter ht, htv⟩

/-- Characterization of the stale targets over the post-reconcile store:
under the uniqueness invariants on the original store, an original record's
uuid is a stale target exactly when the record was pending/waiting, carried
a truthy identity, and that identity is missing from the fetched set. -/
theorem staleTargets_char (f : ExtField) (s s2 : Store) (fetched : List String)
    (pre news : List Rec)
    (hs2 : s2.recs = pre ++ news)
    (hf2 : List.Forall₂ skelEq s.recs pre)
    (hnews : ∀ x ∈ news, x.status = .pending ∧
      ∃ v, truthyVal (recGet f x) = some v ∧ v ∈ fetched)
    (hu : (s.recs.map Rec.uuid).Nodup)
    (hkeys : ((pwCarry f s).map Prod.fst).Nodup)
    (r : Rec) (hr : r ∈ s.recs) :
    r.uuid ∈ staleTargets fetched (findAllPendingBySource f s2) ↔
      ((r.status = .pending ∨ r.status = .waiting) ∧
        ∃ v, truthyVal (recGet f r) = some v ∧ ¬ v ∈ fetched) := by
  have hnp : news.filter (fun x => x.status = TStatus.pending) = news :=
    List.filter_eq_self.mpr (fun x hx => by simp [(hnews x hx).1])
  have hnw : news.filter (fun x => x.status = TStatus.waiting) = [] :=
    List.filter_eq_nil_iff.mpr (fun x hx => by simp [(hnews x hx).1])
  have hpw2 : pwCarry f s2 =
      carryPairs f (s.recs.filter (fun x => x.status = TStatus.pending)) ++
        carryPairs f news ++
        carryPairs f (s.recs.filter (fun x => x.status = TStatus.waiting)) := by
    unfold pwCarry pwRecs carryPairs
    rw [hs2, List.filter_append, List.filter_append, hnp, hnw, List.append_nil,
      List.filterMap_append, List.filterMap_append]
    have h1 := @f2_filter_carry f TStatus.pending _ _ hf2
    have h2 := @f2_filter_carry f TStatus.waiting _ _ hf2
    unfold carryPairs at h1 h2
    rw [h1, h2]
  have hpwS : pwCarry f s =
      carryPairs f (s.recs.filter (fun x => x.status = TStatus.pending)) ++
        carryPairs f (s.recs.filter (fun x => x.status = TStatus.waiting)) := by
    unfold pwCarry pwRecs carryPairs
    rw [List.filterMap_append]
  have hmem2 : ∀ e, e ∈ pwCarry f s2 ↔ (e ∈ pwCarry f s ∨ e ∈ carryPairs f news) := by
    intro e
    rw [hpw2, hpwS]
    simp only [List.mem_append]
    tauto
  have hnewkeys : ∀ e ∈ carryPairs f news, e.1 ∈ fetched := by
    intro e he
    obtain ⟨x, hx, htv, -⟩ := mem_carryPairs he
    obtain ⟨-, v, hv, hvf⟩ := hnews x hx
    rw [hv] at htv
    cases htv
    exact hvf
  rw [findAllPendingBySource_eq]
  constructor
  · intro hin
    obtain ⟨e, he, hef, heu⟩ := mem_staleTargets.mp hin
    rcases buildMapFrom_mem_sub _ _ _ he with h0 | h1
    · cases h0
    rcases (hmem2 e).mp h1 with h2 | h3
    · obtain ⟨z, hz, htz, hzu⟩ := mem_carryPairs h2
      obtain ⟨hzm, hzst⟩ := mem_pwRecs.mp hz
      have hzr : z = r := uuid_nodup_eq hu z hzm r hr (by rw [hzu, heu])
      subst hzr
      exact ⟨hzst, e.1, htz, hef⟩
    · exact absurd (hnewkeys e h3) hef
  · rintro ⟨hstatus, v, htv, hvf⟩
    have hpair : (v, r.uuid) ∈ pwCarry f s :=
      carryPairs_intro (mem_pwRecs.mpr ⟨hr, hstatus⟩) htv
    have hkv : ∀ e ∈ pwCarry f s2, e.1 = v → e.2 = r.uuid := by
      intro e he hek
      rcases (hmem2 e).mp he with h2 | h3
      · have := nodup_keys_eq hkeys e h2 (v, r.uuid) hpair hek
        rw [this]
      · exact absurd (hek ▸ hnewkeys e h3) hvf
    have hsome : (v, r.uuid) ∈ buildMapFrom [] (pwCarry f s2) :=
      buildMapFrom_key_val _ _ v r.uuid
        (Or.inr ((hmem2 (v, r.uuid)).mpr (Or.inl hpair))) hkv
    exact mem_staleTargets.mpr ⟨(v, r.uuid), hsome, hvf, rfl⟩

theorem find?_cons_pos {α : Type} (p : α → Bool) (a : α) (l : List α)
    (h : p a = true) : (a :: l).find? p = some a := by
  simp [List.find?, h]

theorem find?_cons_neg {α : Type} (p : α → Bool) (a : α) (l : List α)
    (h : ¬ p a = true) : (a :: l).find? p = l.find? p := by
  have hf : p a = false := by
    cases hpa : p a
    · rfl
    · exact absurd hpa h
  simp [List.find?, hf]

theorem find?_uuid_self {l : List Rec} (h : (l.map Rec.uuid).Nodup) {r : Rec}
    (hr : r ∈ l) : l.find? (fun z => z.uuid == r.uuid) = some r := by
  induction l with
  | nil => cases hr
  | cons x xs ih =>
    rw [List.map_cons, List.nodup_cons] at h
    rcases List.mem_cons.mp hr with rfl | hrx
    · exact find?_cons_pos (fun z => z.uuid == r.uuid) r xs (by simp)
    · have hne : ¬ (x.uuid == r.uuid) = true := by
        intro hb
        exact h.1 ((eq_of_beq hb) ▸ List.mem_map_of_mem Rec.uuid hrx)
      rw [find?_cons_neg (fun z => z.uuid == r.uuid) x xs hne]
      exact ih h.2 hrx

theorem f2_find?_uuid :
    ∀ {l l' : List Rec}, List.Forall₂ skelEq l l' → ∀ u : String,
      (l.find? (fun z => z.uuid == u) = none ∧
        l'.find? (fun z => z.uuid == u) = none) ∨
      (∃ a b, l.find? (fun z => z.uuid == u) = some a ∧
        l'.find? (fun z => z.uuid == u) = some b ∧ skelEq a b) := by
  intro l l' h
  induction h with
  | nil => intro u; exact Or.inl ⟨rfl, rfl⟩
  | cons hab htail ih =>
    rename_i a b as bs
    intro u
    by_cases hpa : (a.uuid == u) = true
    · have hpb : (b.uuid == u) = true := by
        rw [← hab.1]
        exact hpa
      exact Or.inr ⟨a, b, find?_cons_pos (fun z => z.uuid == u) a as hpa, find?_cons_pos (fun z => z.uuid == u) b bs hpb, hab⟩
    · have hpb : ¬ (b.uuid == u) = true := by
        rw [← hab.1]
        exact hpa
      rw [find?_cons_neg (fun z => z.uuid == u) a as hpa,
        find?_cons_neg (fun z => z.uuid == u) b bs hpb]
      exact ih u

theorem find?_uuid_map {g : Rec → Rec} (hg : ∀ r, (g r).uuid = r.uuid) (u : String) :
    ∀ l : List Rec, (l.map g).find? (fun z => z.uuid == u) =
      (l.find? (fun z => z.uuid == u)).map g := by
  intro l
  induction l with
  | nil => rfl
  | cons x xs ih =>
    by_cases hpx : (x.uuid == u) = true
    · rw [List.map_cons, find?_cons_pos (fun z => z.uuid == u) (g x) (xs.map g)
          (by show ((g x).uuid == u) = true; rw [hg x]; exact hpx),
        find?_cons_pos (fun z => z.uuid == u) x xs hpx]
      rfl
    · rw [List.map_cons, find?_cons_neg (fun z => z.uuid == u) (g x) (xs.map g)
          (by show ¬ ((g x).uuid == u) = true; rw [hg x]; exact hpx),
        find?_cons_neg (fun z => z.uuid == u) x xs hpx]
      exact ih

theorem find?_append_some {l1 l2 : List Rec} {p : Rec → Bool} {a : Rec}
    (h : l1.find? p = some a) : (l1 ++ l2).find? p = some a := by
  induction l1 with
  | nil => cases h
  | cons x xs ih =>
    by_cases hpx : p x = true
    · rw [find?_cons_pos p x xs hpx] at h
      rw [List.cons_append, find?_cons_pos p x (xs ++ l2) hpx]
      exact h
    · rw [find?_cons_neg p x xs hpx] at h
      rw [List.cons_append, find?_cons_neg p x (xs ++ l2) hpx]
      exact ih h

theorem staleMark_uuid (targets : List String) (r : Rec) :
    (staleMark targets r).uuid = r.uuid := by
  unfold staleMark
  split <;> rfl

/-- The reconcile-then-link store decomposes into skeleton-preserved
originals plus created pending records carrying processed identities. -/
theorem reconLink_skel (f : ExtField) (df : String → String → Bool)
    (ts ts2 : List TaskData) (s : Store) (m m2 : List (String × String)) :
    ∃ pre news,
      (linkPhase f df ts2 m2 (reconcile f ts s m).store).1.recs = pre ++ news ∧
      List.Forall₂ skelEq s.recs pre ∧
      ∀ x ∈ news, x.status = .pending ∧
        ∃ v, recGet f x = some v ∧ v ∈ fetchedIdsOf f ts := by
  obtain ⟨pre, news, heq, hf2, hnews⟩ := reconcile_skel f ts s m
  have hlink := linkPhase_skel f df ts2 m2 (reconcile f ts s m).store
  rw [heq] at hlink
  obtain ⟨p1, p2, heq2, hp1, hp2⟩ := forall₂_append_split hlink
  refine ⟨p1, p2, heq2, forall₂_skel_trans hf2 hp1, ?_⟩
  intro x hx
  obtain ⟨y, hy, hr⟩ := forall₂_mem_right hp2 x hx
  obtain ⟨hst, v, hget, hv⟩ := hnews y hy
  exact ⟨hr.2.1 ▸ hst, v, (skelEq_recGet hr f) ▸ hget, hv⟩

theorem mem_fetchedIdsOf_postFilter {f : ExtField} {env : SyncEnv}
    {ts0 : List TaskData} {v : String}
    (h : v ∈ fetchedIdsOf f (postFilter env ts0)) : v ∈ fetchedIdsOf f ts0 := by
  unfold postFilter at h
  split at h
  · exact fetchedIdsOf_filter_sub h
  · exact h

/-- The real (non-dry) run of `syncSource` on a successful fetch, spelled
out. -/
theorem syncSource_real (f : ExtField) (env : SyncEnv) (s : Store)
    (ts0 : List TaskData) (hf : env.fetch = .ok ts0) (hd : env.dryRun = false) :
    syncSource f env s =
      { store := (stalePhase (fetchedIdsOf f ts0) false
          (findAllPendingBySource f
            (linkPhase f env.depFail (postFilter env ts0)
              (reconcile f (postFilter env ts0) s []).idMap
              (reconcile f (postFilter env ts0) s []).store).1)
          (linkPhase f env.depFail (postFilter env ts0)
            (reconcile f (postFilter env ts0) s []).idMap
            (reconcile f (postFilter env ts0) s []).store).1).1,
        created := (reconcile f (postFilter env ts0) s []).created,
        updated := (reconcile f (postFilter env ts0) s []).updated,
        skipped := (reconcile f (postFilter env ts0) s []).skipped,
        gidToUuid := (reconcile f (postFilter env ts0) s []).idMap,
        linkCalls := (linkPhase f env.depFail (postFilter env ts0)
          (reconcile f (postFilter env ts0) s []).idMap
          (reconcile f (postFilter env ts0) s []).store).2.1,
        linkedCount := (linkPhase f env.depFail (postFilter env ts0)
          (reconcile f (postFilter env ts0) s []).idMap
          (reconcile f (postFilter env ts0) s []).store).2.2,
        staleCompleted := (stalePhase (fetchedIdsOf f ts0) false
          (findAllPendingBySource f
            (linkPhase f env.depFail (postFilter env ts0)
              (reconcile f (postFilter env ts0) s []).idMap
              (reconcile f (postFilter env ts0) s []).store).1)
          (linkPhase f env.depFail (postFilter env ts0)
            (reconcile f (postFilter env ts0) s []).idMap
            (reconcile f (postFilter env ts0) s []).store).1).2.1,
        staleCount := (stalePhase (fetchedIdsOf f ts0) false
          (findAllPendingBySource f
            (linkPhase f env.depFail (postFilter env ts0)
              (reconcile f (postFilter env ts0) s []).idMap
              (reconcile f (postFilter env ts0) s []).store).1)
          (linkPhase f env.depFail (postFilter env ts0)
            (reconcile f (postFilter env ts0) s []).idMap
            (reconcile f (postFilter env ts0) s []).store).1).2.2 } := by
  simp only [syncSource, hf, hd, Bool.false_eq_true, if_false]

/-- A fetch error makes `syncSource` return with the store untouched. -/
theorem syncSource_fetch_error (f : ExtField) (env : SyncEnv) (s : Store)
    (e : String) (hf : env.fetch = .error e) :
    syncSource f env s = { store := s, fetchError := true } := by
  simp only [syncSource, hf]

/-! ### C3 — stale-detection correctness -/

/-- C3.  Stale-detection correctness: under the store's uniqueness invariants
(no duplicate uuids, no duplicate pending/waiting identity), a run whose
fetch failed leaves the store untouched (no local record is completed), and
a run whose fetch succeeded completes exactly those local pending/waiting
records carrying the source's identity field whose identity value is absent
from the pre-filter fetched-identity set: every original record's final
status is `completed` iff it already was, or it was pending/waiting with a
truthy identity not among the fetched ids. -/
theorem stale_detection_exact (f : ExtField) (env : SyncEnv) (s : Store)
    (hu : (s.recs.map Rec.uuid).Nodup)
    (hkeys : ((pwCarry f s).map Prod.fst).Nodup)
    (hd : env.dryRun = false) :
    (∀ e, env.fetch = .error e → (syncSource f env s).store = s) ∧
    (∀ ts0, env.fetch = .ok ts0 → ∀ r ∈ s.recs,
      ∃ x, (syncSource f env s).store.recs.find? (fun z => z.uuid == r.uuid)
          = some x ∧
        (x.status = .completed ↔
          (r.status = .completed ∨
            ((r.status = .pending ∨ r.status = .waiting) ∧
              ∃ v, truthyVal (recGet f r) = some v ∧
                ¬ v ∈ fetchedIdsOf f ts0)))) := by
  constructor
  · intro e hf
    rw [syncSource_fetch_error f env s e hf]
  · intro ts0 hf r hr
    obtain ⟨pre, news, heq, hf2, hnews⟩ :=
      reconLink_skel f env.depFail (postFilter env ts0) (postFilter env ts0) s []
        (reconcile f (postFilter env ts0) s []).idMap
    set s2 := (linkPhase f env.depFail (postFilter env ts0)
      (reconcile f (postFilter env ts0) s []).idMap
      (reconcile f (postFilter env ts0) s []).store).1 with hs2def
    have hnews2 : ∀ x ∈ news, x.status = .pending ∧
        ∃ v, truthyVal (recGet f x) = some v ∧ v ∈ fetchedIdsOf f ts0 := by
      intro x hx
      obtain ⟨hst, v, hget, hv⟩ := hnews x hx
      refine ⟨hst, v, ?_, mem_fetchedIdsOf_postFilter hv⟩
      rw [hget]
      exact truthyVal_of_ne (mem_fetchedIdsOf_ne_empty hv)
    have hchar := staleTargets_char f s s2 (fetchedIdsOf f ts0) pre news heq
      hf2 hnews2 hu hkeys r hr
    have hstore : (syncSource f env s).store =
        (stalePhase (fetchedIdsOf f ts0) false (findAllPendingBySource f s2) s2).1 := by
      rw [syncSource_real f env s ts0 hf hd]
    have hfinal := stalePhase_store (fetchedIdsOf f ts0)
      (findAllPendingBySource f s2) s2
    have hfr := find?_uuid_self hu hr
    rcases f2_find?_uuid hf2 r.uuid with ⟨hn1, _⟩ | ⟨a, b, ha, hb, hab⟩
    · rw [hfr] at hn1
      cases hn1
    · have hra : a = r := by
        rw [hfr] at ha
        cases ha
        rfl
      rw [hra] at hab
      refine ⟨staleMark (staleTargets (fetchedIdsOf f ts0)
        (findAllPendingBySource f s2)) b, ?_, ?_⟩
      · rw [hstore, hfinal, find?_uuid_map (staleMark_uuid _) r.uuid s2.recs, heq,
          find?_append_some hb]
        rfl
      · by_cases hmem : b.uuid ∈ staleTargets (fetchedIdsOf f ts0)
            (findAllPendingBySource f s2)
        · have hrmem : r.uuid ∈ staleTargets (fetchedIdsOf f ts0)
              (findAllPendingBySource f s2) := by
            rw [hab.1]
            exact hmem
          have hrhs := hchar.mp hrmem
          constructor
          · intro _
            exact Or.inr hrhs
          · intro _
            unfold staleMark
            rw [if_pos hmem]
        · constructor
          · intro hx
            unfold staleMark at hx
            rw [if_neg hmem] at hx
            exact Or.inl (hab.2.1.trans hx)
          · intro hrhs
            unfold staleMark
            rw [if_neg hmem]
            rcases hrhs with hc | hspec
            · rw [← hab.2.1]
              exact hc
            · exact absurd (by rw [hab.1] at hchar; exact hchar.mpr hspec) hmem

/-- Concrete store for the C3 witness: pending records A, B, C for Asana
identities t1, t2, t3. -/
def st3 : Store :=
  ⟨[{ uuid := "a1", status := .pending, description := "A", asana_gid := some "t1" },
    { uuid := "a2", status := .pending, description := "B", asana_gid := some "t2" },
    { uuid := "a3", status := .pending, description := "C", asana_gid := some "t3" }], 0⟩

/-- Concrete environment for the C3 witness: the fetch returns t1 and t2. -/
def env3w : SyncEnv :=
  { fetch := .ok [{ description := "A", asana_gid := some "t1" },
      { description := "B", asana_gid := some "t2" }] }

/-- Witness for C3: fetched {t1, t2} against local pending {t1, t2, t3}. -/
theorem stale_detection_exact_witness :
    ((st3.recs.map Rec.uuid).Nodup ∧
      ((pwCarry .asanaGid st3).map Prod.fst).Nodup ∧ env3w.dryRun = false) ∧
    (∀ e, env3w.fetch = .error e → (syncSource .asanaGid env3w st3).store = st3) ∧
    (∀ ts0, env3w.fetch = .ok ts0 → ∀ r ∈ st3.recs,
      ∃ x, (syncSource .asanaGid env3w st3).store.recs.find?
          (fun z => z.uuid == r.uuid) = some x ∧
        (x.status = .completed ↔
          (r.status = .completed ∨
            ((r.status = .pending ∨ r.status = .waiting) ∧
              ∃ v, truthyVal (recGet .asanaGid r) = some v ∧
                ¬ v ∈ fetchedIdsOf .asanaGid ts0)))) :=
  ⟨⟨by decide, by decide, by decide⟩,
    stale_detection_exact .asanaGid env3w st3 (by decide) (by decide) (by decide)⟩

/-! ### C2 — classifier exclusion is not staleness -/

/-- C2.  A local pending task whose identity was fetched — even when the
classifier excluded the fetched task from import — is never marked stale:
after the cycle, every record with its uuid is still pending (and one
exists).  Staleness is decided against the pre-filter fetched-identity set,
never the post-filter kept set. -/
theorem classifier_exclusion_not_stale (f : ExtField) (env : SyncEnv) (s : Store)
    (ts0 : List TaskData) (t : TaskData) (r : Rec) (v : String)
    (hu : (s.recs.map Rec.uuid).Nodup)
    (hkeys : ((pwCarry f s).map Prod.fst).Nodup)
    (hd : env.dryRun = false)
    (hf : env.fetch = .ok ts0)
    (ht : t ∈ ts0)
    (htv : truthyVal (tdGet f t) = some v)
    (hexcl : env.useOllama = true) (hen : env.ollamaEnabled = true)
    (hok : env.ollamaFails = false) (hkeep : env.keep t = false)
    (hr : r ∈ s.recs) (hst : r.status = .pending)
    (hrv : truthyVal (recGet f r) = some v) :
    (∃ x ∈ (syncSource f env s).store.recs, x.uuid = r.uuid) ∧
    (∀ x ∈ (syncSource f env s).store.recs, x.uuid = r.uuid →
      x.status = .pending) := by
  have hvf : v ∈ fetchedIdsOf f ts0 := List.mem_filterMap.mpr ⟨t, ht, htv⟩
  obtain ⟨pre, news, heq, hf2, hnews⟩ :=
    reconLink_skel f env.depFail (postFilter env ts0) (postFilter env ts0) s []
      (reconcile f (postFilter env ts0) s []).idMap
  set s2 := (linkPhase f env.depFail (postFilter env ts0)
    (reconcile f (postFilter env ts0) s []).idMap
    (reconcile f (postFilter env ts0) s []).store).1 with hs2def
  have hnews2 : ∀ x ∈ news, x.status = .pending ∧
      ∃ w, truthyVal (recGet f x) = some w ∧ w ∈ fetchedIdsOf f ts0 := by
    intro x hx
    obtain ⟨hxst, w, hget, hw⟩ := hnews x hx
    refine ⟨hxst, w, ?_, mem_fetchedIdsOf_postFilter hw⟩
    rw [hget]
    exact truthyVal_of_ne (mem_fetchedIdsOf_ne_empty hw)
  have hchar := staleTargets_char f s s2 (fetchedIdsOf f ts0) pre news heq
    hf2 hnews2 hu hkeys r hr
  have hnotgt : ¬ r.uuid ∈ staleTargets (fetchedIdsOf f ts0)
      (findAllPendingBySource f s2) := by
    intro hmem
    obtain ⟨-, w, hw, hnf⟩ := hchar.mp hmem
    rw [hrv] at hw
    cases hw
    exact hnf hvf
  have hstore : (syncSource f env s).store =
      (stalePhase (fetchedIdsOf f ts0) false (findAllPendingBySource f s2) s2).1 := by
    rw [syncSource_real f env s ts0 hf hd]
  have hfinal := stalePhase_store (fetchedIdsOf f ts0)
    (findAllPendingBySource f s2) s2
  constructor
  · obtain ⟨b, hb, hab⟩ := forall₂_mem_left hf2 r hr
    refine ⟨staleMark (staleTargets (fetchedIdsOf f ts0)
      (findAllPendingBySource f s2)) b, ?_, ?_⟩
    · rw [hstore, hfinal]
      exact List.mem_map_of_mem _ (by rw [heq]; exact List.mem_append.mpr (Or.inl hb))
    · rw [staleMark_uuid, ← hab.1]
  · intro x hx hxr
    rw [hstore, hfinal] at hx
    obtain ⟨y, hy, hxy⟩ := List.mem_map.mp hx
    have hyu : y.uuid = r.uuid := by
      rw [← hxr, ← hxy, staleMark_uuid]
    have hymem : ¬ y.uuid ∈ staleTargets (fetchedIdsOf f ts0)
        (findAllPendingBySource f s2) := by
      rw [hyu]
      exact hnotgt
    have hxstat : x.status = y.status := by
      rw [← hxy]
      unfold staleMark
      rw [if_neg hymem]
    rw [heq] at hy
    rcases List.mem_append.mp hy with hyp | hyn
    · obtain ⟨y0, hy0, hy0y⟩ := forall₂_mem_right hf2 y hyp
      have hy0r : y0 = r := uuid_nodup_eq hu y0 hy0 r hr (by rw [hy0y.1, hyu])
      rw [hxstat, ← hy0y.2.1, hy0r]
      exact hst
    · rw [hxstat]
      exact (hnews2 y hyn).1

/-- Concrete record for the C2 witness. -/
def rec2w : Rec :=
  { uuid := "b1", status := .pending, description := "Buy milk",
    asana_gid := some "t9" }

/-- Concrete store for the C2 witness: one pending record for identity t9. -/
def st2w : Store := ⟨[rec2w], 0⟩

/-- Concrete fetched task for the C2 witness. -/
def td2w : TaskData := { description := "Buy milk", asana_gid := some "t9" }

/-- Concrete environment for the C2 witness: the classifier excludes every
task, but the fetch saw t9. -/
def env2w : SyncEnv :=
  { fetch := .ok [td2w], useOllama := true, ollamaEnabled := true,
    ollamaFails := false, keep := fun _ => false }

/-- Witness for C2: the fetched-but-excluded task's local record stays
pending. -/
theorem classifier_exclusion_not_stale_witness :
    ((st2w.recs.map Rec.uuid).Nodup ∧
      ((pwCarry .asanaGid st2w).map Prod.fst).Nodup ∧
      env2w.fetch = .ok [td2w] ∧ td2w ∈ [td2w] ∧
      truthyVal (tdGet .asanaGid td2w) = some "t9" ∧
      env2w.keep td2w = false) ∧
    ((∃ x ∈ (syncSource .asanaGid env2w st2w).store.recs,
        x.uuid = rec2w.uuid) ∧
      (∀ x ∈ (syncSource .asanaGid env2w st2w).store.recs,
        x.uuid = rec2w.uuid → x.status = .pending)) :=
  ⟨⟨by decide, by decide, rfl, by decide, by decide, rfl⟩,
    classifier_exclusion_not_stale .asanaGid env2w st2w [td2w] td2w rec2w "t9"
      (by decide) (by decide) (by decide) rfl (by decide) (by decide)
      rfl rfl rfl rfl (by decide) (by decide) (by decide)⟩

/-! ### C4 — completion-push failure isolation -/

/-- `markFn` never changes a record's uuid. -/
theorem markFn_uuid (f : ExtField) (u : String) (r : Rec) :
    (markFn f u r).uuid = r.uuid := by
  unfold markFn
  by_cases hc : r.uuid = u
  · rw [if_pos hc]
    cases f <;> rfl
  · rw [if_neg hc]

/-- `find?` by uuid commutes with mapping a uuid-preserving function. -/
theorem find?_deq_map {g : Rec → Rec} (hg : ∀ r, (g r).uuid = r.uuid)
    (u : String) :
    ∀ l : List Rec, (l.map g).find? (fun z => decide (z.uuid = u)) =
      (l.find? (fun z => decide (z.uuid = u))).map g := by
  intro l
  induction l with
  | nil => rfl
  | cons x xs ih =>
    by_cases hpx : x.uuid = u
    · rw [List.map_cons,
        find?_cons_pos (fun z => decide (z.uuid = u)) (g x) (xs.map g)
          (by simp [hg x, hpx]),
        find?_cons_pos (fun z => decide (z.uuid = u)) x xs (by simp [hpx])]
      rfl
    · rw [List.map_cons,
        find?_cons_neg (fun z => decide (z.uuid = u)) (g x) (xs.map g)
          (by simp [hg x, hpx]),
        find?_cons_neg (fun z => decide (z.uuid = u)) x xs (by simp [hpx]), ih]

/-- Marking one uuid as synced does not change the synced flag read for any
other uuid. -/
theorem flagInStore_markSynced_ne (f : ExtField) (st : Store) (u u' : String)
    (h : ¬ u = u') :
    flagInStore f (markSynced f st u) u' = flagInStore f st u' := by
  simp only [flagInStore, markSynced]
  rw [find?_deq_map (markFn_uuid f u) u' st.recs]
  cases hf : st.recs.find? (fun z => decide (z.uuid = u')) with
  | none => rfl
  | some cur =>
    have hcu : cur.uuid = u' := by
      have hp := List.find?_some hf
      simpa using hp
    have hfix : markFn f u cur = cur := by
      unfold markFn
      rw [if_neg (fun hc => h (by rw [← hc, hcu]))]
    simp [hfix]

/-- Characterization of the Asana completion-push loop: relative to the flags
of the starting store `s`, the totals partition the candidate list, the error
count is exactly the failing unflagged candidates, every unflagged candidate
is called, and a failing candidate's synced flag is left untouched. -/
theorem pushAsanaGo_char (fail : String → Bool) (s : Store) (cands : List Rec) :
    ∀ st : Store,
      (∀ r ∈ cands, flagInStore .asanaGid st r.uuid = flagInStore .asanaGid s r.uuid) →
      ((cands.map Rec.uuid).Nodup) →
      ((pushAsanaGo fail cands st).synced + (pushAsanaGo fail cands st).skipped +
          (pushAsanaGo fail cands st).errors = cands.length) ∧
      ((pushAsanaGo fail cands st).errors = (cands.filter (fun r =>
          !(flagInStore .asanaGid s r.uuid) && fail (extVal .asanaGid r))).length) ∧
      ((pushAsanaGo fail cands st).calls = (cands.filter (fun r =>
          !(flagInStore .asanaGid s r.uuid))).map (extVal .asanaGid)) ∧
      (∀ u, ¬ u ∈ cands.map Rec.uuid →
        flagInStore .asanaGid (pushAsanaGo fail cands st).store u =
          flagInStore .asanaGid st u) ∧
      (∀ r ∈ cands, flagInStore .asanaGid s r.uuid = false →
        fail (extVal .asanaGid r) = true →
        flagInStore .asanaGid (pushAsanaGo fail cands st).store r.uuid =
          flagInStore .asanaGid st r.uuid) := by
  induction cands with
  | nil =>
    intro st hpres hnd
    simp [pushAsanaGo]
  | cons r rest ih =>
    intro st hpres hnd
    rw [List.map_cons, List.nodup_cons] at hnd
    have hflag := hpres r (List.mem_cons_self r rest)
    have hpres' : ∀ x ∈ rest,
        flagInStore .asanaGid st x.uuid = flagInStore .asanaGid s x.uuid :=
      fun x hx => hpres x (List.mem_cons_of_mem r hx)
    have hne : ∀ x ∈ rest, ¬ r.uuid = x.uuid := by
      intro x hx hc
      apply hnd.1
      rw [hc]
      exact List.mem_map_of_mem Rec.uuid hx
    by_cases hf1 : flagInStore .asanaGid st r.uuid = true
    · have hs1 : flagInStore .asanaGid s r.uuid = true := by
        rw [← hflag]
        exact hf1
      obtain ⟨ih1, ih2, ih3, ih4, ih5⟩ := ih st hpres' hnd.2
      have hred : pushAsanaGo fail (r :: rest) st =
          { pushAsanaGo fail rest st with
            skipped := (pushAsanaGo fail rest st).skipped + 1 } := by
        simp only [pushAsanaGo, hf1, if_true]
      refine ⟨?_, ?_, ?_, ?_, ?_⟩
      · rw [hred]
        simp only [List.length_cons]
        omega
      · rw [hred]
        simp only [List.filter_cons, hs1, Bool.not_true, Bool.false_and,
          Bool.false_eq_true, if_false]
        exact ih2
      · rw [hred]
        simp only [List.filter_cons, hs1, Bool.not_true, Bool.false_eq_true,
          if_false]
        exact ih3
      · intro u hu0
        rw [hred]
        refine ih4 u ?_
        intro hc
        exact hu0 (by rw [List.map_cons]; exact List.mem_cons_of_mem _ hc)
      · intro x hx hxf hxfail
        rcases List.mem_cons.mp hx with rfl | hxr
        · rw [hs1] at hxf
          cases hxf
        · rw [hred]
          exact ih5 x hxr hxf hxfail
    · rw [Bool.not_eq_true] at hf1
      have hs0 : flagInStore .asanaGid s r.uuid = false := by
        rw [← hflag]
        exact hf1
      by_cases hf2 : fail (extVal .asanaGid r) = true
      · obtain ⟨ih1, ih2, ih3, ih4, ih5⟩ := ih st hpres' hnd.2
        have hred : pushAsanaGo fail (r :: rest) st =
            { pushAsanaGo fail rest st with
              errors := (pushAsanaGo fail rest st).errors + 1,
              calls := extVal .asanaGid r :: (pushAsanaGo fail rest st).calls } := by
          simp only [pushAsanaGo, hf1, Bool.false_eq_true, if_false, hf2, if_true]
        refine ⟨?_, ?_, ?_, ?_, ?_⟩
        · rw [hred]
          simp only [List.length_cons]
          omega
        · rw [hred]
          simp only [List.filter_cons, hs0, Bool.not_false, Bool.true_and, hf2,
            if_true, List.length_cons]
          omega
        · rw [hred]
          simp only [List.filter_cons, hs0, Bool.not_false, if_true,
            List.map_cons]
          rw [ih3]
        · intro u hu0
          rw [hred]
          refine ih4 u ?_
          intro hc
          exact hu0 (by rw [List.map_cons]; exact List.mem_cons_of_mem _ hc)
        · intro x hx hxf hxfail
          rcases List.mem_cons.mp hx with rfl | hxr
          · rw [hred]
            exact ih4 x.uuid hnd.1
          · rw [hred]
            exact ih5 x hxr hxf hxfail
      · have hf2' : fail (extVal .asanaGid r) = false := by
          rw [← Bool.not_eq_true]
          exact hf2
        have hpres'' : ∀ x ∈ rest,
            flagInStore .asanaGid (markSynced .asanaGid st r.uuid) x.uuid =
              flagInStore .asanaGid s x.uuid := by
          intro x hx
          rw [flagInStore_markSynced_ne .asanaGid st r.uuid x.uuid (hne x hx)]
          exact hpres' x hx
        obtain ⟨ih1, ih2, ih3, ih4, ih5⟩ :=
          ih (markSynced .asanaGid st r.uuid) hpres'' hnd.2
        have hred : pushAsanaGo fail (r :: rest) st =
            { pushAsanaGo fail rest (markSynced .asanaGid st r.uuid) with
              synced := (pushAsanaGo fail rest (markSynced .asanaGid st r.uuid)).synced + 1,
              calls := extVal .asanaGid r ::
                (pushAsanaGo fail rest (markSynced .asanaGid st r.uuid)).calls } := by
          simp only [pushAsanaGo, hf1, Bool.false_eq_true, if_false, hf2', if_true]
        refine ⟨?_, ?_, ?_, ?_, ?_⟩
        · rw [hred]
          simp only [List.length_cons]
          omega
        · rw [hred]
          simp only [List.filter_cons, hs0, Bool.not_false, Bool.true_and, hf2',
            Bool.false_eq_true, if_false]
          exact ih2
        · rw [hred]
          simp only [List.filter_cons, hs0, Bool.not_false, if_true,
            List.map_cons]
          rw [ih3]
        · intro u hu0
          have hu1 : ¬ u = r.uuid ∧ ¬ u ∈ rest.map Rec.uuid := by
            rw [List.map_cons, List.mem_cons] at hu0
            exact not_or.mp hu0
          rw [hred]
          rw [ih4 u hu1.2]
          exact flagInStore_markSynced_ne .asanaGid st r.uuid u
            (fun hc => hu1.1 hc.symm)
        · intro x hx hxf hxfail
          rcases List.mem_cons.mp hx with rfl | hxr
          · rw [hf2'] at hxfail
            cases hxfail
          · rw [hred]
            rw [ih5 x hxr hxf hxfail]
            exact flagInStore_markSynced_ne .asanaGid st r.uuid x.uuid (hne x hxr)

/-- First Things-push record for the C4 counterexample: completed, linked to
Things task tv-1, not yet flagged. -/
def recC4a : Rec :=
  { uuid := "u1", status := .completed, description := "A",
    things3_uuid := some "tv-1" }

/-- Second Things-push record for the C4 counterexample: completed, linked to
Things task tv-2, not yet flagged. -/
def recC4b : Rec :=
  { uuid := "u2", status := .completed, description := "B",
    things3_uuid := some "tv-2" }

/-- Store for the C4 counterexample. -/
def stC4 : Store := ⟨[recC4a, recC4b], 0⟩

/-- Failure oracle for the C4 counterexample: completing tv-1 throws. -/
def failC4 : String → Bool := fun u => u == "tv-1"

/-- C4 counterexample.  The Things completion push has no per-candidate
error handling: when completing the first candidate tv-1 throws, the run
aborts — no error counter exists, the second candidate tv-2 is never
attempted, nothing is marked synced, and the store is left as it was. -/
theorem push_failure_aborts_things_cex :
    (syncCompletionsToThings stC4 failC4).aborted = true ∧
    (syncCompletionsToThings stC4 failC4).calls = ["tv-1"] ∧
    ¬ "tv-2" ∈ (syncCompletionsToThings stC4 failC4).calls ∧
    (syncCompletionsToThings stC4 failC4).synced = 0 ∧
    (syncCompletionsToThings stC4 failC4).store = stC4 := by
  decide

/-- C4 (amended).  For the Asana completion push, over every store with
duplicate-free record uuids and every failure oracle: all candidates are
processed (the three counters partition the candidate list, so no failure
aborts the remainder), `errors` counts exactly the unflagged candidates whose
write fails, every unflagged candidate — including those after a failure — is
passed to the writer, and a failing candidate's synced flag stays false in
the final store. -/
theorem push_failure_isolated_asana (s : Store) (fail : String → Bool)
    (hu : (s.recs.map Rec.uuid).Nodup) :
    ((syncCompletionsToAsana s fail).synced + (syncCompletionsToAsana s fail).skipped +
        (syncCompletionsToAsana s fail).errors =
      (completedCandidates .asanaGid s).length) ∧
    ((syncCompletionsToAsana s fail).errors = ((completedCandidates .asanaGid s).filter
        (fun r => !(flagInStore .asanaGid s r.uuid) && fail (extVal .asanaGid r))).length) ∧
    ((syncCompletionsToAsana s fail).calls = ((completedCandidates .asanaGid s).filter
        (fun r => !(flagInStore .asanaGid s r.uuid))).map (extVal .asanaGid)) ∧
    (∀ r ∈ completedCandidates .asanaGid s,
      flagInStore .asanaGid s r.uuid = false → fail (extVal .asanaGid r) = true →
        flagInStore .asanaGid (syncCompletionsToAsana s fail).store r.uuid = false) := by
  have hcn : ((completedCandidates .asanaGid s).map Rec.uuid).Nodup := by
    refine List.Nodup.sublist ?_ hu
    exact List.Sublist.map Rec.uuid (List.filter_sublist s.recs)
  obtain ⟨h1, h2, h3, h4, h5⟩ :=
    pushAsanaGo_char fail s (completedCandidates .asanaGid s) s
      (fun r _ => rfl) hcn
  refine ⟨h1, h2, h3, ?_⟩
  intro r hr hrf hrfail
  have := h5 r hr hrf hrfail
  rw [syncCompletionsToAsana, this]
  exact hrf

/-- First Asana-push record for the C4 witness: already flagged as synced. -/
def recC4w1 : Rec :=
  { uuid := "v1", status := .completed, description := "A",
    asana_gid := some "g1", asana_synced := true }

/-- Second Asana-push record for the C4 witness: its write will fail. -/
def recC4w2 : Rec :=
  { uuid := "v2", status := .completed, description := "B",
    asana_gid := some "g2" }

/-- Third Asana-push record for the C4 witness: its write succeeds. -/
def recC4w3 : Rec :=
  { uuid := "v3", status := .completed, description := "C",
    asana_gid := some "g3" }

/-- Store for the C4 witness. -/
def stC4w : Store := ⟨[recC4w1, recC4w2, recC4w3], 0⟩

/-- Failure oracle for the C4 witness: completing g2 fails. -/
def failC4w : String → Bool := fun u => u == "g2"

/-- Witness for C4: with one flagged, one failing and one succeeding
candidate, all three are processed, exactly one error is counted, both
unflagged candidates are called, and the failing one stays unflagged. -/
theorem push_failure_isolated_asana_witness :
    (stC4w.recs.map Rec.uuid).Nodup ∧
    (((syncCompletionsToAsana stC4w failC4w).synced +
          (syncCompletionsToAsana stC4w failC4w).skipped +
          (syncCompletionsToAsana stC4w failC4w).errors =
        (completedCandidates .asanaGid stC4w).length) ∧
      ((syncCompletionsToAsana stC4w failC4w).errors =
        ((completedCandidates .asanaGid stC4w).filter
          (fun r => !(flagInStore .asanaGid stC4w r.uuid) &&
            failC4w (extVal .asanaGid r))).length) ∧
      ((syncCompletionsToAsana stC4w failC4w).calls =
        ((completedCandidates .asanaGid stC4w).filter
          (fun r => !(flagInStore .asanaGid stC4w r.uuid))).map (extVal .asanaGid)) ∧
      (∀ r ∈ completedCandidates .asanaGid stC4w,
        flagInStore .asanaGid stC4w r.uuid = false →
          failC4w (extVal .asanaGid r) = true →
          flagInStore .asanaGid (syncCompletionsToAsana stC4w failC4w).store r.uuid =
            false)) :=
  ⟨by decide, push_failure_isolated_asana stC4w failC4w (by decide)⟩

/-! ### C7 — push idempotence -/

/-- A duplicate-free image list makes the mapped function injective on the
list's elements. -/
theorem map_nodup_inj {α β : Type} {g : α → β} {l : List α}
    (h : (l.map g).Nodup) : ∀ a ∈ l, ∀ b ∈ l, g a = g b → a = b := by
  induction l with
  | nil =>
    intro a ha
    cases ha
  | cons x xs ih =>
    rw [List.map_cons, List.nodup_cons] at h
    intro a ha b hb hf
    rcases List.mem_cons.mp ha with rfl | ha'
    · rcases List.mem_cons.mp hb with rfl | hb'
      · rfl
      · exact absurd (by rw [hf]; exact List.mem_map_of_mem g hb') h.1
    · rcases List.mem_cons.mp hb with rfl | hb'
      · exact absurd (by rw [← hf]; exact List.mem_map_of_mem g ha') h.1
      · exact ih h.2 a ha' b hb' hf

/-- The Asana push counts as skipped exactly the candidates whose synced flag
was already set in the starting store. -/
theorem pushAsanaGo_skipped (fail : String → Bool) (s : Store) (cands : List Rec) :
    ∀ st : Store,
      (∀ r ∈ cands, flagInStore .asanaGid st r.uuid = flagInStore .asanaGid s r.uuid) →
      ((cands.map Rec.uuid).Nodup) →
      (pushAsanaGo fail cands st).skipped =
        (cands.filter (fun r => flagInStore .asanaGid s r.uuid)).length := by
  induction cands with
  | nil =>
    intro st hpres hnd
    simp [pushAsanaGo]
  | cons r rest ih =>
    intro st hpres hnd
    rw [List.map_cons, List.nodup_cons] at hnd
    have hflag := hpres r (List.mem_cons_self r rest)
    have hpres' : ∀ x ∈ rest,
        flagInStore .asanaGid st x.uuid = flagInStore .asanaGid s x.uuid :=
      fun x hx => hpres x (List.mem_cons_of_mem r hx)
    have hne : ∀ x ∈ rest, ¬ r.uuid = x.uuid := by
      intro x hx hc
      apply hnd.1
      rw [hc]
      exact List.mem_map_of_mem Rec.uuid hx
    by_cases hf1 : flagInStore .asanaGid st r.uuid = true
    · have hs1 : flagInStore .asanaGid s r.uuid = true := by
        rw [← hflag]
        exact hf1
      have hred : pushAsanaGo fail (r :: rest) st =
          { pushAsanaGo fail rest st with
            skipped := (pushAsanaGo fail rest st).skipped + 1 } := by
        simp only [pushAsanaGo, hf1, if_true]
      rw [hred]
      simp only [List.filter_cons, hs1, if_true]
      rw [ih st hpres' hnd.2]
      rfl
    · rw [Bool.not_eq_true] at hf1
      have hs0 : flagInStore .asanaGid s r.uuid = false := by
        rw [← hflag]
        exact hf1
      by_cases hf2 : fail (extVal .asanaGid r) = true
      · have hred : pushAsanaGo fail (r :: rest) st =
            { pushAsanaGo fail rest st with
              errors := (pushAsanaGo fail rest st).errors + 1,
              calls := extVal .asanaGid r :: (pushAsanaGo fail rest st).calls } := by
          simp only [pushAsanaGo, hf1, Bool.false_eq_true, if_false, hf2, if_true]
        rw [hred]
        simp only [List.filter_cons, hs0, Bool.false_eq_true, if_false]
        exact ih st hpres' hnd.2
      · have hf2' : fail (extVal .asanaGid r) = false := by
          rw [← Bool.not_eq_true]
          exact hf2
        have hpres'' : ∀ x ∈ rest,
            flagInStore .asanaGid (markSynced .asanaGid st r.uuid) x.uuid =
              flagInStore .asanaGid s x.uuid := by
          intro x hx
          rw [flagInStore_markSynced_ne .asanaGid st r.uuid x.uuid (hne x hx)]
          exact hpres' x hx
        have hred : pushAsanaGo fail (r :: rest) st =
            { pushAsanaGo fail rest (markSynced .asanaGid st r.uuid) with
              synced := (pushAsanaGo fail rest (markSynced .asanaGid st r.uuid)).synced + 1,
              calls := extVal .asanaGid r ::
                (pushAsanaGo fail rest (markSynced .asanaGid st r.uuid)).calls } := by
          simp only [pushAsanaGo, hf1, Bool.false_eq_true, if_false, hf2', if_true]
        rw [hred]
        simp only [List.filter_cons, hs0, Bool.false_eq_true, if_false]
        exact ih (markSynced .asanaGid st r.uuid) hpres'' hnd.2

/-- Characterization of the Things completion-push loop: every writer call
carries some candidate's external value, an already-flagged candidate is
never called (given duplicate-free external values), and when nothing threw,
the skip count is exactly the flagged candidates. -/
theorem pushThingsGo_char (fail : String → Bool) (s : Store) (cands : List Rec) :
    ∀ st : Store,
      (∀ r ∈ cands, flagInStore .things3Uuid st r.uuid = flagInStore .things3Uuid s r.uuid) →
      ((cands.map Rec.uuid).Nodup) →
      ((cands.map (extVal .things3Uuid)).Nodup) →
      (∀ v ∈ (pushThingsGo fail cands st).calls, v ∈ cands.map (extVal .things3Uuid)) ∧
      (∀ r ∈ cands, flagInStore .things3Uuid s r.uuid = true →
        ¬ extVal .things3Uuid r ∈ (pushThingsGo fail cands st).calls) ∧
      ((pushThingsGo fail cands st).aborted = false →
        (pushThingsGo fail cands st).skipped =
          (cands.filter (fun r => flagInStore .things3Uuid s r.uuid)).length) := by
  induction cands with
  | nil =>
    intro st hpres hnd hnv
    simp [pushThingsGo]
  | cons r rest ih =>
    intro st hpres hnd hnv
    rw [List.map_cons, List.nodup_cons] at hnd
    rw [List.map_cons, List.nodup_cons] at hnv
    have hflag := hpres r (List.mem_cons_self r rest)
    have hpres' : ∀ x ∈ rest,
        flagInStore .things3Uuid st x.uuid = flagInStore .things3Uuid s x.uuid :=
      fun x hx => hpres x (List.mem_cons_of_mem r hx)
    have hne : ∀ x ∈ rest, ¬ r.uuid = x.uuid := by
      intro x hx hc
      apply hnd.1
      rw [hc]
      exact List.mem_map_of_mem Rec.uuid hx
    by_cases hf1 : flagInStore .things3Uuid st r.uuid = true
    · have hs1 : flagInStore .things3Uuid s r.uuid = true := by
        rw [← hflag]
        exact hf1
      obtain ⟨ih1, ih2, ih3⟩ := ih st hpres' hnd.2 hnv.2
      have hred : pushThingsGo fail (r :: rest) st =
          { pushThingsGo fail rest st with
            skipped := (pushThingsGo fail rest st).skipped + 1 } := by
        simp only [pushThingsGo, hf1, if_true]
      refine ⟨?_, ?_, ?_⟩
      · intro v hv
        rw [hred] at hv
        rw [List.map_cons]
        exact List.mem_cons_of_mem _ (ih1 v hv)
      · intro x hx hxf
        rcases List.mem_cons.mp hx with rfl | hxr
        · rw [hred]
          intro hvc
          exact hnv.1 (ih1 (extVal .things3Uuid x) hvc)
        · rw [hred]
          exact ih2 x hxr hxf
      · rw [hred]
        intro hab
        simp only [List.filter_cons, hs1, if_true]
        rw [ih3 hab]
        rfl
    · rw [Bool.not_eq_true] at hf1
      have hs0 : flagInStore .things3Uuid s r.uuid = false := by
        rw [← hflag]
        exact hf1
      by_cases hf2 : fail (extVal .things3Uuid r) = true
      · have hred : pushThingsGo fail (r :: rest) st =
            ⟨st, 0, 0, [extVal .things3Uuid r], true⟩ := by
          simp only [pushThingsGo, hf1, Bool.false_eq_true, if_false, hf2, if_true]
        refine ⟨?_, ?_, ?_⟩
        · intro v hv
          rw [hred] at hv
          rcases List.mem_singleton.mp hv with rfl
          rw [List.map_cons]
          exact List.mem_cons_self _ _
        · intro x hx hxf
          rcases List.mem_cons.mp hx with rfl | hxr
          · rw [hs0] at hxf
            cases hxf
          · rw [hred]
            intro hvc
            rcases List.mem_singleton.mp hvc with hv
            exact hnv.1 (by rw [← hv]; exact List.mem_map_of_mem _ hxr)
        · rw [hred]
          intro hab
          cases hab
      · have hf2' : fail (extVal .things3Uuid r) = false := by
          rw [← Bool.not_eq_true]
          exact hf2
        have hpres'' : ∀ x ∈ rest,
            flagInStore .things3Uuid (markSynced .things3Uuid st r.uuid) x.uuid =
              flagInStore .things3Uuid s x.uuid := by
          intro x hx
          rw [flagInStore_markSynced_ne .things3Uuid st r.uuid x.uuid (hne x hx)]
          exact hpres' x hx
        obtain ⟨ih1, ih2, ih3⟩ :=
          ih (markSynced .things3Uuid st r.uuid) hpres'' hnd.2 hnv.2
        have hred : pushThingsGo fail (r :: rest) st =
            { pushThingsGo fail rest (markSynced .things3Uuid st r.uuid) with
              synced := (pushThingsGo fail rest (markSynced .things3Uuid st r.uuid)).synced + 1,
              calls := extVal .things3Uuid r ::
                (pushThingsGo fail rest (markSynced .things3Uuid st r.uuid)).calls } := by
          simp only [pushThingsGo, hf1, Bool.false_eq_true, if_false, hf2', if_true]
        refine ⟨?_, ?_, ?_⟩
        · intro v hv
          rw [hred] at hv
          rw [List.map_cons]
          rcases List.mem_cons.mp hv with rfl | hv'
          · exact List.mem_cons_self _ _
          · exact List.mem_cons_of_mem _ (ih1 v hv')
        · intro x hx hxf
          rcases List.mem_cons.mp hx with rfl | hxr
          · rw [hs0] at hxf
            cases hxf
          · rw [hred]
            intro hvc
            rcases List.mem_cons.mp hvc with hv | hv'
            · exact hnv.1 (by rw [← hv]; exact List.mem_map_of_mem _ hxr)
            · exact ih2 x hxr hxf hv'
        · rw [hred]
          intro hab
          simp only [List.filter_cons, hs0, Bool.false_eq_true, if_false]
          exact ih3 hab

/-- C7.  Push idempotence for both completion writers: a completed candidate
whose destination synced flag is already true is never passed to the writer
(its external value appears in no writer call), and it is counted as skipped
— always for the Asana push, and for the Things push whenever no write threw.
Candidates are assumed to carry distinct uuids and distinct external values. -/
theorem push_idempotence (s : Store) (failT failA : String → Bool)
    (hu : (s.recs.map Rec.uuid).Nodup)
    (hvT : ((completedCandidates .things3Uuid s).map (extVal .things3Uuid)).Nodup)
    (hvA : ((completedCandidates .asanaGid s).map (extVal .asanaGid)).Nodup) :
    (∀ r ∈ completedCandidates .things3Uuid s,
      flagInStore .things3Uuid s r.uuid = true →
        ¬ extVal .things3Uuid r ∈ (syncCompletionsToThings s failT).calls) ∧
    ((syncCompletionsToThings s failT).aborted = false →
      (syncCompletionsToThings s failT).skipped =
        ((completedCandidates .things3Uuid s).filter
          (fun r => flagInStore .things3Uuid s r.uuid)).length) ∧
    (∀ r ∈ completedCandidates .asanaGid s,
      flagInStore .asanaGid s r.uuid = true →
        ¬ extVal .asanaGid r ∈ (syncCompletionsToAsana s failA).calls) ∧
    ((syncCompletionsToAsana s failA).skipped =
      ((completedCandidates .asanaGid s).filter
        (fun r => flagInStore .asanaGid s r.uuid)).length) := by
  have hcnT : ((completedCandidates .things3Uuid s).map Rec.uuid).Nodup := by
    refine List.Nodup.sublist ?_ hu
    exact List.Sublist.map Rec.uuid (List.filter_sublist s.recs)
  have hcnA : ((completedCandidates .asanaGid s).map Rec.uuid).Nodup := by
    refine List.Nodup.sublist ?_ hu
    exact List.Sublist.map Rec.uuid (List.filter_sublist s.recs)
  obtain ⟨hT1, hT2, hT3⟩ :=
    pushThingsGo_char failT s (completedCandidates .things3Uuid s) s
      (fun r _ => rfl) hcnT hvT
  obtain ⟨hA1, hA2, hA3, hA4, hA5⟩ :=
    pushAsanaGo_char failA s (completedCandidates .asanaGid s) s
      (fun r _ => rfl) hcnA
  refine ⟨hT2, hT3, ?_, ?_⟩
  · intro r hr hrf hvc
    rw [syncCompletionsToAsana, hA3] at hvc
    obtain ⟨r', hr', hval⟩ := List.mem_map.mp hvc
    have hr'c : r' ∈ completedCandidates .asanaGid s := List.mem_of_mem_filter hr'
    have hr'f := List.of_mem_filter hr'
    have heq : r' = r := map_nodup_inj hvA r' hr'c r hr hval
    rw [heq, hrf] at hr'f
    simp at hr'f
  · exact pushAsanaGo_skipped failA s (completedCandidates .asanaGid s) s
      (fun r _ => rfl) hcnA

/-- C7 witness record: already flagged for Things. -/
def recC7a : Rec :=
  { uuid := "w1", status := .completed, description := "A",
    things3_uuid := some "tva", things3_synced := true }

/-- C7 witness record: unflagged Things candidate. -/
def recC7b : Rec :=
  { uuid := "w2", status := .completed, description := "B",
    things3_uuid := some "tvb" }

/-- C7 witness record: already flagged for Asana. -/
def recC7c : Rec :=
  { uuid := "w3", status := .completed, description := "C",
    asana_gid := some "ga", asana_synced := true }

/-- C7 witness record: unflagged Asana candidate. -/
def recC7d : Rec :=
  { uuid := "w4", status := .completed, description := "D",
    asana_gid := some "gb" }

/-- Store for the C7 witness. -/
def stC7 : Store := ⟨[recC7a, recC7b, recC7c, recC7d], 0⟩

/-- Failure oracle for the C7 witness: no write fails. -/
def failC7 : String → Bool := fun _ => false

/-- Witness for C7: with one flagged and one unflagged candidate per
destination and no failures, the flagged candidates are skipped and never
called. -/
theorem push_idempotence_witness :
    ((stC7.recs.map Rec.uuid).Nodup ∧
      ((completedCandidates .things3Uuid stC7).map (extVal .things3Uuid)).Nodup ∧
      ((completedCandidates .asanaGid stC7).map (extVal .asanaGid)).Nodup) ∧
    ((∀ r ∈ completedCandidates .things3Uuid stC7,
        flagInStore .things3Uuid stC7 r.uuid = true →
          ¬ extVal .things3Uuid r ∈ (syncCompletionsToThings stC7 failC7).calls) ∧
      ((syncCompletionsToThings stC7 failC7).aborted = false →
        (syncCompletionsToThings stC7 failC7).skipped =
          ((completedCandidates .things3Uuid stC7).filter
            (fun r => flagInStore .things3Uuid stC7 r.uuid)).length) ∧
      (∀ r ∈ completedCandidates .asanaGid stC7,
        flagInStore .asanaGid stC7 r.uuid = true →
          ¬ extVal .asanaGid r ∈ (syncCompletionsToAsana stC7 failC7).calls) ∧
      ((syncCompletionsToAsana stC7 failC7).skipped =
        ((completedCandidates .asanaGid stC7).filter
          (fun r => flagInStore .asanaGid stC7 r.uuid)).length)) :=
  ⟨⟨by decide, by decide, by decide⟩,
    push_idempotence stC7 failC7 failC7 (by decide) (by decide) (by decide)⟩

/-! ### C9 — dependency linking -/

/-- The per-task linking decision of the dependency loop: the pair of store
uuids that gets a dependency edge, if the task carries truthy parent and
child identities, both resolve through the run's map, and the store call
does not fail. -/
def linkDecision (f : ExtField) (depFail : String → String → Bool)
    (m : List (String × String)) (td : TaskData) : Option (String × String) :=
  match truthyVal td.parentAsanaGid with
  | none => none
  | some p =>
    match truthyVal (tdGet f td) with
    | none => none
    | some c =>
      match mapGet m c, mapGet m p with
      | some cu, some pu => if depFail cu pu then none else some (cu, pu)
      | some _, none => none
      | none, some _ => none
      | none, none => none

/-- The dependency loop's successful calls are exactly the per-task linking
decisions, in task order, and `linkedCount` is their number — independent of
the store threaded through the loop. -/
theorem linkPhase_calls (f : ExtField) (depFail : String → String → Bool)
    (m : List (String × String)) :
    ∀ (tasks : List TaskData) (s : Store),
      (linkPhase f depFail tasks m s).2.1 =
        tasks.filterMap (linkDecision f depFail m) ∧
      (linkPhase f depFail tasks m s).2.2 =
        (tasks.filterMap (linkDecision f depFail m)).length := by
  intro tasks
  induction tasks with
  | nil =>
    intro s
    exact ⟨rfl, rfl⟩
  | cons td rest ih =>
    intro s
    cases hp : truthyVal td.parentAsanaGid with
    | none =>
      have hdec : linkDecision f depFail m td = none := by
        simp only [linkDecision, hp]
      have he : linkPhase f depFail (td :: rest) m s =
          linkPhase f depFail rest m s := by
        simp only [linkPhase, hp]
      rw [he, List.filterMap_cons_none hdec]
      exact ih s
    | some p =>
      cases hc : truthyVal (tdGet f td) with
      | none =>
        have hdec : linkDecision f depFail m td = none := by
          simp only [linkDecision, hp, hc]
        have he : linkPhase f depFail (td :: rest) m s =
            linkPhase f depFail rest m s := by
          simp only [linkPhase, hp, hc]
        rw [he, List.filterMap_cons_none hdec]
        exact ih s
      | some c =>
        cases hcu : mapGet m c with
        | none =>
          cases hpu : mapGet m p with
          | none =>
            have hdec : linkDecision f depFail m td = none := by
              simp only [linkDecision, hp, hc, hcu, hpu]
            have he : linkPhase f depFail (td :: rest) m s =
                linkPhase f depFail rest m s := by
              simp only [linkPhase, hp, hc, hcu, hpu]
            rw [he, List.filterMap_cons_none hdec]
            exact ih s
          | some pu =>
            have hdec : linkDecision f depFail m td = none := by
              simp only [linkDecision, hp, hc, hcu, hpu]
            have he : linkPhase f depFail (td :: rest) m s =
                linkPhase f depFail rest m s := by
              simp only [linkPhase, hp, hc, hcu, hpu]
            rw [he, List.filterMap_cons_none hdec]
            exact ih s
        | some cu =>
          cases hpu : mapGet m p with
          | none =>
            have hdec : linkDecision f depFail m td = none := by
              simp only [linkDecision, hp, hc, hcu, hpu]
            have he : linkPhase f depFail (td :: rest) m s =
                linkPhase f depFail rest m s := by
              simp only [linkPhase, hp, hc, hcu, hpu]
            rw [he, List.filterMap_cons_none hdec]
            exact ih s
          | some pu =>
            by_cases hdf : depFail cu pu = true
            · have hdec : linkDecision f depFail m td = none := by
                simp only [linkDecision, hp, hc, hcu, hpu, hdf, if_true]
              have he : linkPhase f depFail (td :: rest) m s =
                  linkPhase f depFail rest m s := by
                simp only [linkPhase, hp, hc, hcu, hpu, hdf, if_true]
              rw [he, List.filterMap_cons_none hdec]
              exact ih s
            · rw [Bool.not_eq_true] at hdf
              have hdec : linkDecision f depFail m td = some (cu, pu) := by
                simp only [linkDecision, hp, hc, hcu, hpu, hdf,
                  Bool.false_eq_true, if_false]
              have he : linkPhase f depFail (td :: rest) m s =
                  ((linkPhase f depFail rest m (setDependency s cu pu)).1,
                    (cu, pu) ::
                      (linkPhase f depFail rest m (setDependency s cu pu)).2.1,
                    (linkPhase f depFail rest m (setDependency s cu pu)).2.2 + 1) := by
                simp only [linkPhase, hp, hc, hcu, hpu, hdf,
                  Bool.false_eq_true, if_false]
              rw [he, List.filterMap_cons_some hdec]
              obtain ⟨ih1, ih2⟩ := ih (setDependency s cu pu)
              constructor
              · rw [← ih1]
              · rw [List.length_cons, ← ih2]

/-- Inversion of a successful linking decision. -/
theorem linkDecision_some_inv (f : ExtField) (depFail : String → String → Bool)
    (m : List (String × String)) (td : TaskData) (cu pu : String)
    (h : linkDecision f depFail m td = some (cu, pu)) :
    ∃ p c, truthyVal td.parentAsanaGid = some p ∧
      truthyVal (tdGet f td) = some c ∧
      mapGet m c = some cu ∧ mapGet m p = some pu ∧ depFail cu pu = false := by
  cases hp : truthyVal td.parentAsanaGid with
  | none =>
    simp only [linkDecision, hp] at h
    exact Option.noConfusion h
  | some p =>
    cases hc : truthyVal (tdGet f td) with
    | none =>
      simp only [linkDecision, hp, hc] at h
      exact Option.noConfusion h
    | some c =>
      cases hcu : mapGet m c with
      | none =>
        cases hpu : mapGet m p with
        | none =>
          simp only [linkDecision, hp, hc, hcu, hpu] at h
          exact Option.noConfusion h
        | some pu0 =>
          simp only [linkDecision, hp, hc, hcu, hpu] at h
          exact Option.noConfusion h
      | some cu0 =>
        cases hpu : mapGet m p with
        | none =>
          simp only [linkDecision, hp, hc, hcu, hpu] at h
          exact Option.noConfusion h
        | some pu0 =>
          cases hdf : depFail cu0 pu0 with
          | true =>
            simp only [linkDecision, hp, hc, hcu, hpu, hdf, if_true] at h
            exact Option.noConfusion h
          | false =>
            simp only [linkDecision, hp, hc, hcu, hpu, hdf, Bool.false_eq_true,
              if_false, Option.some.injEq, Prod.mk.injEq] at h
            refine ⟨p, c, rfl, rfl, ?_, ?_, ?_⟩
            · rw [hcu, h.1]
            · rw [hpu, h.2]
            · rw [← h.1, ← h.2]
              exact hdf

/-- A successful map lookup exhibits its entry. -/
theorem mapGet_some_mem (m : List (String × String)) (k v : String)
    (h : mapGet m k = some v) : (k, v) ∈ m := by
  unfold mapGet at h
  cases hf : m.find? (fun e => decide (e.1 = k)) with
  | none =>
    rw [hf] at h
    cases h
  | some e =>
    rw [hf] at h
    have hm : e ∈ m := List.mem_of_find?_eq_some hf
    have hk : e.1 = k := by
      have hp := List.find?_some hf
      simpa using hp
    have hv : e.2 = v := by
      cases h
      rfl
    rw [← hk, ← hv]
    exact hm

/-- With duplicate-free map values, two keys resolving to the same uuid are
equal. -/
theorem mapGet_val_inj (m : List (String × String))
    (hnm : (m.map Prod.snd).Nodup) (c1 c2 cu : String)
    (h1 : mapGet m c1 = some cu) (h2 : mapGet m c2 = some cu) : c1 = c2 := by
  have hm1 := mapGet_some_mem m c1 cu h1
  have hm2 := mapGet_some_mem m c2 cu h2
  have := map_nodup_inj hnm (c1, cu) hm1 (c2, cu) hm2 rfl
  exact congrArg Prod.fst this

/-- `filterMap` over a cons whose head is dropped, with the function given
explicitly. -/
theorem filterMap_cons_none_ex {α β : Type} (g : α → Option β) (a : α)
    (l : List α) (h : g a = none) : (a :: l).filterMap g = l.filterMap g := by
  simp [List.filterMap_cons, h]

/-- `filterMap` over a cons whose head is kept, with the function given
explicitly. -/
theorem filterMap_cons_some_ex {α β : Type} (g : α → Option β) (a : α)
    (l : List α) (b : β) (h : g a = some b) :
    (a :: l).filterMap g = b :: l.filterMap g := by
  simp [List.filterMap_cons, h]

/-- With a duplicate-free image, two list elements hit by `filterMap` at the
same value coincide. -/
theorem filterMap_nodup_unique {α β : Type} (dc : α → Option β) (l : List α)
    (h : (l.filterMap dc).Nodup) (a b : α) (v : β)
    (ha : a ∈ l) (hb : b ∈ l) (hva : dc a = some v) (hvb : dc b = some v) :
    a = b := by
  induction l with
  | nil => cases ha
  | cons x xs ih =>
    have htail : (xs.filterMap dc).Nodup := by
      cases hdx : dc x with
      | none =>
        rw [List.filterMap_cons_none hdx] at h
        exact h
      | some vx =>
        rw [List.filterMap_cons_some hdx, List.nodup_cons] at h
        exact h.2
    rcases List.mem_cons.mp ha with rfl | ha'
    · rcases List.mem_cons.mp hb with rfl | hb'
      · rfl
      · rw [List.filterMap_cons_some hva, List.nodup_cons] at h
        exact absurd (List.mem_filterMap.mpr ⟨b, hb', hvb⟩) h.1
    · rcases List.mem_cons.mp hb with rfl | hb'
      · rw [List.filterMap_cons_some hvb, List.nodup_cons] at h
        exact absurd (List.mem_filterMap.mpr ⟨a, ha', hva⟩) h.1
      · exact ih htail ha' hb'

/-- If some task resolves its child identity to `cu` but its own linking
decision is `none`, no call with child `cu` is ever made. -/
theorem linkCalls_absent (f : ExtField) (depFail : String → String → Bool)
    (m : List (String × String)) (tasks : List TaskData)
    (hnm : (m.map Prod.snd).Nodup)
    (hnc : (tasks.filterMap (fun td => truthyVal (tdGet f td))).Nodup)
    (td : TaskData) (htd : td ∈ tasks) (c cu : String)
    (hc : truthyVal (tdGet f td) = some c)
    (hcu : mapGet m c = some cu)
    (hdec : linkDecision f depFail m td = none) :
    ∀ pu', ¬ (cu, pu') ∈ tasks.filterMap (linkDecision f depFail m) := by
  intro pu' hmem
  obtain ⟨td', htd', hdec'⟩ := List.mem_filterMap.mp hmem
  obtain ⟨p', c', hp', hc', hcu', hpu', hdf'⟩ :=
    linkDecision_some_inv f depFail m td' cu pu' hdec'
  have hcc : c' = c := mapGet_val_inj m hnm c' c cu hcu' hcu
  have htdeq : td' = td := by
    refine filterMap_nodup_unique (fun td => truthyVal (tdGet f td)) tasks hnc
      td' td c htd' htd ?_ hc
    show truthyVal (tdGet f td') = some c
    rw [hc', hcc]
  rw [htdeq, hdec] at hdec'
  cases hdec'

/-- A task whose linking decision succeeds contributes its edge exactly once
to the calls, given duplicate-free child identities and map values. -/
theorem linkCalls_count_one (f : ExtField) (depFail : String → String → Bool)
    (m : List (String × String)) (tasks : List TaskData)
    (hnm : (m.map Prod.snd).Nodup)
    (hnc : (tasks.filterMap (fun td => truthyVal (tdGet f td))).Nodup)
    (td : TaskData) (htd : td ∈ tasks) (c cu pu : String)
    (hc : truthyVal (tdGet f td) = some c)
    (hcu : mapGet m c = some cu)
    (hdec : linkDecision f depFail m td = some (cu, pu)) :
    (tasks.filterMap (linkDecision f depFail m)).count (cu, pu) = 1 := by
  induction tasks with
  | nil => cases htd
  | cons x xs ih =>
    have htail : (xs.filterMap (fun td => truthyVal (tdGet f td))).Nodup := by
      cases hdx : truthyVal (tdGet f x) with
      | none =>
        rw [filterMap_cons_none_ex (fun td => truthyVal (tdGet f td)) x xs hdx] at hnc
        exact hnc
      | some vx =>
        rw [filterMap_cons_some_ex (fun td => truthyVal (tdGet f td)) x xs vx hdx,
          List.nodup_cons] at hnc
        exact hnc.2
    rcases List.mem_cons.mp htd with rfl | htd'
    · rw [List.filterMap_cons_some hdec, List.count_cons_self]
      have hzero : ¬ (cu, pu) ∈ xs.filterMap (linkDecision f depFail m) := by
        intro hmem
        obtain ⟨td', htd', hdec'⟩ := List.mem_filterMap.mp hmem
        obtain ⟨p', c', hp', hc', hcu', hpu', hdf'⟩ :=
          linkDecision_some_inv f depFail m td' cu pu hdec'
        have hcc : c' = c := mapGet_val_inj m hnm c' c cu hcu' hcu
        rw [filterMap_cons_some_ex (fun td => truthyVal (tdGet f td)) td xs c hc,
          List.nodup_cons] at hnc
        refine hnc.1 (List.mem_filterMap.mpr ⟨td', htd', ?_⟩)
        show truthyVal (tdGet f td') = some c
        rw [hc', hcc]
      rw [List.count_eq_zero.mpr hzero]
    · have hdx_ne : ∀ b, linkDecision f depFail m x = some b → b ≠ (cu, pu) := by
        intro b hdb hbe
        rw [hbe] at hdb
        obtain ⟨p', c', hp', hc', hcu', hpu', hdf'⟩ :=
          linkDecision_some_inv f depFail m x cu pu hdb
        have hcc : c' = c := mapGet_val_inj m hnm c' c cu hcu' hcu
        rw [filterMap_cons_some_ex (fun td => truthyVal (tdGet f td)) x xs c
            (by show truthyVal (tdGet f x) = some c; rw [hc', hcc]),
          List.nodup_cons] at hnc
        exact hnc.1 (List.mem_filterMap.mpr ⟨td, htd', hc⟩)
      cases hdx : linkDecision f depFail m x with
      | none =>
        rw [List.filterMap_cons_none hdx]
        exact ih htail htd'
      | some b =>
        rw [List.filterMap_cons_some hdx,
          List.count_cons_of_ne (fun hbe => hdx_ne b hdx hbe.symm)]
        exact ih htail htd'

/-- C9.  Dependency linking over a successful real run: the successful
dependency calls are exactly the per-task linking decisions in order (so a
failing store call skips only its own edge and the loop continues), the
linked count equals the number of calls, a task whose parent and child both
resolve through the run's IdentityIndex gets its edge exactly once when the
store call succeeds, and an unresolved parent — or a failing call — yields no
edge for that task's child, without aborting the run.  Child identities and
IdentityIndex values are assumed duplicate-free. -/
theorem dependency_linking (f : ExtField) (env : SyncEnv) (s : Store)
    (ts0 : List TaskData)
    (hf : env.fetch = .ok ts0) (hd : env.dryRun = false)
    (hnc : ((postFilter env ts0).filterMap
      (fun td => truthyVal (tdGet f td))).Nodup)
    (hnm : (((syncSource f env s).gidToUuid).map Prod.snd).Nodup) :
    ((syncSource f env s).linkCalls = (postFilter env ts0).filterMap
      (linkDecision f env.depFail ((syncSource f env s).gidToUuid))) ∧
    ((syncSource f env s).linkedCount = (syncSource f env s).linkCalls.length) ∧
    (∀ td ∈ postFilter env ts0, ∀ p c cu pu,
      truthyVal td.parentAsanaGid = some p → truthyVal (tdGet f td) = some c →
      mapGet ((syncSource f env s).gidToUuid) c = some cu →
      mapGet ((syncSource f env s).gidToUuid) p = some pu →
      env.depFail cu pu = false →
      (syncSource f env s).linkCalls.count (cu, pu) = 1) ∧
    (∀ td ∈ postFilter env ts0, ∀ p c cu,
      truthyVal td.parentAsanaGid = some p → truthyVal (tdGet f td) = some c →
      mapGet ((syncSource f env s).gidToUuid) c = some cu →
      mapGet ((syncSource f env s).gidToUuid) p = none →
      ∀ pu', ¬ (cu, pu') ∈ (syncSource f env s).linkCalls) ∧
    (∀ td ∈ postFilter env ts0, ∀ p c cu pu,
      truthyVal td.parentAsanaGid = some p → truthyVal (tdGet f td) = some c →
      mapGet ((syncSource f env s).gidToUuid) c = some cu →
      mapGet ((syncSource f env s).gidToUuid) p = some pu →
      env.depFail cu pu = true →
      ¬ (cu, pu) ∈ (syncSource f env s).linkCalls) := by
  have hrw := syncSource_real f env s ts0 hf hd
  have hmap : (syncSource f env s).gidToUuid =
      (reconcile f (postFilter env ts0) s []).idMap := by
    rw [hrw]
  have hcalls : (syncSource f env s).linkCalls =
      (linkPhase f env.depFail (postFilter env ts0)
        (reconcile f (postFilter env ts0) s []).idMap
        (reconcile f (postFilter env ts0) s []).store).2.1 := by
    rw [hrw]
  have hcount : (syncSource f env s).linkedCount =
      (linkPhase f env.depFail (postFilter env ts0)
        (reconcile f (postFilter env ts0) s []).idMap
        (reconcile f (postFilter env ts0) s []).store).2.2 := by
    rw [hrw]
  obtain ⟨hlc, hln⟩ := linkPhase_calls f env.depFail
    (reconcile f (postFilter env ts0) s []).idMap (postFilter env ts0)
    (reconcile f (postFilter env ts0) s []).store
  rw [hmap] at hnm
  have h1 : (syncSource f env s).linkCalls = (postFilter env ts0).filterMap
      (linkDecision f env.depFail ((syncSource f env s).gidToUuid)) := by
    rw [hcalls, hlc, hmap]
  refine ⟨h1, ?_, ?_, ?_, ?_⟩
  · rw [hcount, hln, hcalls, hlc]
  · intro td htd p c cu pu hp hc hcu hpu hdf
    rw [h1, hmap]
    rw [hmap] at hcu hpu
    refine linkCalls_count_one f env.depFail _ _ hnm hnc td htd c cu pu hc hcu ?_
    simp only [linkDecision, hp, hc, hcu, hpu, hdf, Bool.false_eq_true, if_false]
  · intro td htd p c cu hp hc hcu hpu
    rw [h1, hmap]
    rw [hmap] at hcu hpu
    refine linkCalls_absent f env.depFail _ _ hnm hnc td htd c cu hc hcu ?_
    simp only [linkDecision, hp, hc, hcu, hpu]
  · intro td htd p c cu pu hp hc hcu hpu hdf
    rw [h1, hmap]
    rw [hmap] at hcu hpu
    refine linkCalls_absent f env.depFail _ _ hnm hnc td htd c cu hc hcu ?_ pu
    simp only [linkDecision, hp, hc, hcu, hpu, hdf, if_true]

/-- Parent task fetched for the C9 witness. -/
def tdC9p : TaskData := { description := "Parent", asana_gid := some "p1" }

/-- Child task fetched for the C9 witness: carries its parent's identity. -/
def tdC9c : TaskData :=
  { description := "Child", asana_gid := some "c1", parentAsanaGid := some "p1" }

/-- Environment for the C9 witness: both tasks fetched, no failures. -/
def envC9 : SyncEnv := { fetch := .ok [tdC9p, tdC9c] }

/-- Witness for C9: starting from an empty store, the child-parent pair both
resolve and exactly one dependency edge is recorded. -/
theorem dependency_linking_witness :
    (envC9.fetch = .ok [tdC9p, tdC9c] ∧ envC9.dryRun = false ∧
      ((postFilter envC9 [tdC9p, tdC9c]).filterMap
        (fun td => truthyVal (tdGet .asanaGid td))).Nodup ∧
      (((syncSource .asanaGid envC9 ⟨[], 0⟩).gidToUuid).map Prod.snd).Nodup) ∧
    (((syncSource .asanaGid envC9 ⟨[], 0⟩).linkCalls =
        (postFilter envC9 [tdC9p, tdC9c]).filterMap
          (linkDecision .asanaGid envC9.depFail
            ((syncSource .asanaGid envC9 ⟨[], 0⟩).gidToUuid))) ∧
      ((syncSource .asanaGid envC9 ⟨[], 0⟩).linkedCount =
        (syncSource .asanaGid envC9 ⟨[], 0⟩).linkCalls.length) ∧
      (∀ td ∈ postFilter envC9 [tdC9p, tdC9c], ∀ p c cu pu,
        truthyVal td.parentAsanaGid = some p →
        truthyVal (tdGet .asanaGid td) = some c →
        mapGet ((syncSource .asanaGid envC9 ⟨[], 0⟩).gidToUuid) c = some cu →
        mapGet ((syncSource .asanaGid envC9 ⟨[], 0⟩).gidToUuid) p = some pu →
        envC9.depFail cu pu = false →
        (syncSource .asanaGid envC9 ⟨[], 0⟩).linkCalls.count (cu, pu) = 1) ∧
      (∀ td ∈ postFilter envC9 [tdC9p, tdC9c], ∀ p c cu,
        truthyVal td.parentAsanaGid = some p →
        truthyVal (tdGet .asanaGid td) = some c →
        mapGet ((syncSource .asanaGid envC9 ⟨[], 0⟩).gidToUuid) c = some cu →
        mapGet ((syncSource .asanaGid envC9 ⟨[], 0⟩).gidToUuid) p = none →
        ∀ pu', ¬ (cu, pu') ∈ (syncSource .asanaGid envC9 ⟨[], 0⟩).linkCalls) ∧
      (∀ td ∈ postFilter envC9 [tdC9p, tdC9c], ∀ p c cu pu,
        truthyVal td.parentAsanaGid = some p →
        truthyVal (tdGet .asanaGid td) = some c →
        mapGet ((syncSource .asanaGid envC9 ⟨[], 0⟩).gidToUuid) c = some cu →
        mapGet ((syncSource .asanaGid envC9 ⟨[], 0⟩).gidToUuid) p = some pu →
        envC9.depFail cu pu = true →
        ¬ (cu, pu) ∈ (syncSource .asanaGid envC9 ⟨[], 0⟩).linkCalls)) :=
  ⟨⟨rfl, rfl, by decide, by decide⟩,
    dependency_linking .asanaGid envC9 ⟨[], 0⟩ [tdC9p, tdC9c] rfl rfl
      (by decide) (by decide)⟩

/-! ### C5 — dry-run equivalence -/

/-- Setting a key that belongs to the fetched set does not change the
non-fetched entries of a map. -/
theorem filter_mapSet_fetched (fetched : List String)
    (m : List (String × String)) (k v : String) (hk : k ∈ fetched) :
    (mapSet m k v).filter (fun e => !(fetched.contains e.1)) =
      m.filter (fun e => !(fetched.contains e.1)) := by
  unfold mapSet
  by_cases hany : m.any (fun e => e.1 = k) = true
  · rw [if_pos hany, List.filter_map]
    have hpg : ∀ e ∈ m,
        ((fun e => !(fetched.contains e.1)) ∘
          (fun e => if e.1 = k then (k, v) else e)) e =
          (fun e => !(fetched.contains e.1)) e := by
      intro e he
      by_cases hek : e.1 = k
      · simp [Function.comp, hek, hk]
      · simp [Function.comp, hek]
    rw [List.filter_congr hpg]
    have hid : ∀ e ∈ m.filter (fun e => !(fetched.contains e.1)),
        (fun e => if e.1 = k then (k, v) else e) e = id e := by
      intro e he
      have hpe := List.of_mem_filter he
      have hek : ¬ e.1 = k := by
        intro hek
        rw [hek] at hpe
        simp [hk] at hpe
      simp [hek]
    rw [List.map_congr_left hid, List.map_id]
  · rw [if_neg hany, List.filter_append]
    have : ([(k, v)].filter (fun e => !(fetched.contains e.1))) = [] := by
      simp [hk]
    rw [this, List.append_nil]

/-- Setting a key outside the fetched set commutes with dropping the fetched
entries. -/
theorem filter_mapSet_unfetched (fetched : List String)
    (m : List (String × String)) (k v : String) (hk : ¬ k ∈ fetched) :
    (mapSet m k v).filter (fun e => !(fetched.contains e.1)) =
      mapSet (m.filter (fun e => !(fetched.contains e.1))) k v := by
  unfold mapSet
  by_cases hany : m.any (fun e => e.1 = k) = true
  · have hany' : (m.filter (fun e => !(fetched.contains e.1))).any
        (fun e => e.1 = k) = true := by
      obtain ⟨e, he, hek⟩ := List.any_eq_true.mp hany
      have hek' : e.1 = k := by simpa using hek
      refine List.any_eq_true.mpr ⟨e, List.mem_filter.mpr ⟨he, ?_⟩, hek⟩
      simp [hek', hk]
    rw [if_pos hany, if_pos hany', List.filter_map]
    have hpg : ∀ e ∈ m,
        ((fun e => !(fetched.contains e.1)) ∘
          (fun e => if e.1 = k then (k, v) else e)) e =
          (fun e => !(fetched.contains e.1)) e := by
      intro e he
      by_cases hek : e.1 = k
      · simp [Function.comp, hek, hk]
      · simp [Function.comp, hek]
    rw [List.filter_congr hpg]
  · have hany' : ¬ (m.filter (fun e => !(fetched.contains e.1))).any
        (fun e => e.1 = k) = true := by
      intro hc
      obtain ⟨e, he, hek⟩ := List.any_eq_true.mp hc
      exact hany (List.any_eq_true.mpr ⟨e, List.mem_of_mem_filter he, hek⟩)
    rw [if_neg hany, if_neg hany', List.filter_append]
    have : ([(k, v)].filter (fun e => !(fetched.contains e.1))) = [(k, v)] := by
      simp [hk]
    rw [this]

/-- Building the pending-by-source map and then dropping the fetched keys is
the same as building it from the non-fetched pairs only. -/
theorem filter_buildMapFrom (fetched : List String) :
    ∀ (ps m : List (String × String)),
      (buildMapFrom m ps).filter (fun e => !(fetched.contains e.1)) =
        buildMapFrom (m.filter (fun e => !(fetched.contains e.1)))
          (ps.filter (fun e => !(fetched.contains e.1))) := by
  intro ps
  induction ps with
  | nil =>
    intro m
    rfl
  | cons q rest ih =>
    intro m
    rw [buildMapFrom, List.foldl_cons]
    by_cases hq : q.1 ∈ fetched
    · have hfq : (!(fetched.contains q.1)) = false := by
        simp [hq]
      rw [List.filter_cons]
      simp only [hfq, Bool.false_eq_true, if_false]
      have := ih (mapSet m q.1 q.2)
      rw [buildMapFrom] at this
      rw [this, filter_mapSet_fetched fetched m q.1 q.2 hq]
    · have hfq : (!(fetched.contains q.1)) = true := by
        simp [hq]
      rw [List.filter_cons]
      simp only [hfq, if_true]
      have := ih (mapSet m q.1 q.2)
      rw [buildMapFrom] at this
      rw [this, filter_mapSet_unfetched fetched m q.1 q.2 hq]
      rfl

/-- `carryPairs` distributes over append. -/
theorem carryPairs_append (f : ExtField) (l1 l2 : List Rec) :
    carryPairs f (l1 ++ l2) = carryPairs f l1 ++ carryPairs f l2 := by
  unfold carryPairs
  rw [List.filterMap_append]

/-- Every carry pair of the created records has a fetched key. -/
theorem carryPairs_news_fetched {f : ExtField} {fetched : List String}
    {news : List Rec}
    (hnews : ∀ x ∈ news, x.status = TStatus.pending ∧
      ∃ v, truthyVal (recGet f x) = some v ∧ v ∈ fetched) :
    ∀ e ∈ carryPairs f news, e.1 ∈ fetched := by
  intro e he
  obtain ⟨r, hr, ht, -⟩ := mem_carryPairs he
  obtain ⟨-, v, hv, hvf⟩ := hnews r hr
  rw [ht] at hv
  cases hv
  exact hvf

/-- The non-fetched stale entries of the post-reconcile store are exactly
those of the original store: created records carry fetched identities and
surviving records keep their skeleton. -/
theorem stale_entries_pre_news (f : ExtField) (fetched : List String)
    (s s2 : Store) (pre news : List Rec)
    (hs2 : s2.recs = pre ++ news)
    (hf2 : List.Forall₂ skelEq s.recs pre)
    (hnews : ∀ x ∈ news, x.status = TStatus.pending ∧
      ∃ v, truthyVal (recGet f x) = some v ∧ v ∈ fetched) :
    (findAllPendingBySource f s2).filter (fun e => !(fetched.contains e.1)) =
      (findAllPendingBySource f s).filter (fun e => !(fetched.contains e.1)) := by
  rw [findAllPendingBySource_eq, findAllPendingBySource_eq]
  have hnp : news.filter (fun r => r.status = TStatus.pending) = news := by
    refine List.filter_eq_self.mpr ?_
    intro x hx
    simp [(hnews x hx).1]
  have hnw : news.filter (fun r => r.status = TStatus.waiting) = [] := by
    refine List.filter_eq_nil_iff.mpr ?_
    intro x hx
    simp [(hnews x hx).1]
  have hpw2 : pwCarry f s2 =
      carryPairs f (s.recs.filter (fun r => r.status = TStatus.pending)) ++
        carryPairs f news ++
        carryPairs f (s.recs.filter (fun r => r.status = TStatus.waiting)) := by
    unfold pwCarry pwRecs
    rw [hs2, List.filter_append, List.filter_append, hnp, hnw,
      List.append_nil, carryPairs_append, carryPairs_append,
      f2_filter_carry hf2, f2_filter_carry hf2]
  have hpw1 : pwCarry f s =
      carryPairs f (s.recs.filter (fun r => r.status = TStatus.pending)) ++
        carryPairs f (s.recs.filter (fun r => r.status = TStatus.waiting)) := by
    unfold pwCarry pwRecs
    rw [carryPairs_append]
  have hnf : (carryPairs f news).filter
      (fun e => !(fetched.contains e.1)) = [] := by
    refine List.filter_eq_nil_iff.mpr ?_
    intro e he
    simp [carryPairs_news_fetched hnews e he]
  rw [filter_buildMapFrom, filter_buildMapFrom, hpw2, hpw1,
    List.filter_append, List.filter_append, List.filter_append, hnf,
    List.append_nil]

/-- The dry run of `syncSource` on a successful fetch, spelled out. -/
theorem syncSource_dry (f : ExtField) (env : SyncEnv) (s : Store)
    (ts0 : List TaskData) (hf : env.fetch = .ok ts0) (hd : env.dryRun = true) :
    syncSource f env s =
      { store := (stalePhase (fetchedIdsOf f ts0) true
          (findAllPendingBySource f s) s).1,
        wouldSync := (postFilter env ts0).map (fun t => t.description),
        staleReported := (stalePhase (fetchedIdsOf f ts0) true
          (findAllPendingBySource f s) s).2.1,
        staleCount := (stalePhase (fetchedIdsOf f ts0) true
          (findAllPendingBySource f s) s).2.2 } := by
  simp only [syncSource, hf, hd, if_true]

/-- With no write failures, the Things push calls exactly the unflagged
candidates, in order, and does not abort. -/
theorem pushThingsGo_nofail (s : Store) (cands : List Rec) :
    ∀ st : Store,
      (∀ r ∈ cands, flagInStore .things3Uuid st r.uuid =
        flagInStore .things3Uuid s r.uuid) →
      ((cands.map Rec.uuid).Nodup) →
      (pushThingsGo (fun _ => false) cands st).calls =
        (cands.filter (fun r => !(flagInStore .things3Uuid s r.uuid))).map
          (extVal .things3Uuid) ∧
      (pushThingsGo (fun _ => false) cands st).aborted = false := by
  induction cands with
  | nil =>
    intro st hpres hnd
    simp [pushThingsGo]
  | cons r rest ih =>
    intro st hpres hnd
    rw [List.map_cons, List.nodup_cons] at hnd
    have hflag := hpres r (List.mem_cons_self r rest)
    have hpres' : ∀ x ∈ rest,
        flagInStore .things3Uuid st x.uuid = flagInStore .things3Uuid s x.uuid :=
      fun x hx => hpres x (List.mem_cons_of_mem r hx)
    have hne : ∀ x ∈ rest, ¬ r.uuid = x.uuid := by
      intro x hx hc
      apply hnd.1
      rw [hc]
      exact List.mem_map_of_mem Rec.uuid hx
    by_cases hf1 : flagInStore .things3Uuid st r.uuid = true
    · have hs1 : flagInStore .things3Uuid s r.uuid = true := by
        rw [← hflag]
        exact hf1
      obtain ⟨ih1, ih2⟩ := ih st hpres' hnd.2
      have hred : pushThingsGo (fun _ => false) (r :: rest) st =
          { pushThingsGo (fun _ => false) rest st with
            skipped := (pushThingsGo (fun _ => false) rest st).skipped + 1 } := by
        simp only [pushThingsGo, hf1, if_true]
      rw [hred]
      simp only [List.filter_cons, hs1, Bool.not_true, Bool.false_eq_true,
        if_false]
      exact ⟨ih1, ih2⟩
    · rw [Bool.not_eq_true] at hf1
      have hs0 : flagInStore .things3Uuid s r.uuid = false := by
        rw [← hflag]
        exact hf1
      have hpres'' : ∀ x ∈ rest,
          flagInStore .things3Uuid (markSynced .things3Uuid st r.uuid) x.uuid =
            flagInStore .things3Uuid s x.uuid := by
        intro x hx
        rw [flagInStore_markSynced_ne .things3Uuid st r.uuid x.uuid (hne x hx)]
        exact hpres' x hx
      obtain ⟨ih1, ih2⟩ :=
        ih (markSynced .things3Uuid st r.uuid) hpres'' hnd.2
      have hred : pushThingsGo (fun _ => false) (r :: rest) st =
          { pushThingsGo (fun _ => false) rest
              (markSynced .things3Uuid st r.uuid) with
            synced := (pushThingsGo (fun _ => false) rest
              (markSynced .things3Uuid st r.uuid)).synced + 1,
            calls := extVal .things3Uuid r ::
              (pushThingsGo (fun _ => false) rest
                (markSynced .things3Uuid st r.uuid)).calls } := by
        simp only [pushThingsGo, hf1, Bool.false_eq_true, if_false]
      rw [hred]
      simp only [List.filter_cons, hs0, Bool.not_false, if_true, List.map_cons]
      exact ⟨by rw [ih1], ih2⟩

/-- Fetched task for the C5 counterexample: identical to the stored record. -/
def tdC5 : TaskData := { description := "Same", asana_gid := some "t5" }

/-- Stored record for the C5 counterexample. -/
def recC5 : Rec :=
  { uuid := "u5", status := .pending, description := "Same",
    asana_gid := some "t5" }

/-- Store for the C5 counterexample and witness. -/
def stC5 : Store := ⟨[recC5], 0⟩

/-- Real-run environment for the C5 counterexample. -/
def envC5r : SyncEnv := { fetch := .ok [tdC5] }

/-- Dry-run environment for the C5 counterexample and witness. -/
def envC5d : SyncEnv := { fetch := .ok [tdC5], dryRun := true }

/-- C5 counterexample.  The dry run does not compute the real run's per-task
create/update/skip decisions: for a fetched task identical to its local
record, the real run decides `skipped` (1 skip, no creates or updates, store
untouched), while the dry run reports the task as "would sync" and leaves
every action count at zero. -/
theorem dry_run_decisions_cex :
    ((syncSource .asanaGid envC5r stC5).created = 0 ∧
      (syncSource .asanaGid envC5r stC5).updated = 0 ∧
      (syncSource .asanaGid envC5r stC5).skipped = 1 ∧
      (syncSource .asanaGid envC5r stC5).store = stC5) ∧
    ((syncSource .asanaGid envC5d stC5).wouldSync = ["Same"] ∧
      (syncSource .asanaGid envC5d stC5).created = 0 ∧
      (syncSource .asanaGid envC5d stC5).updated = 0 ∧
      (syncSource .asanaGid envC5d stC5).skipped = 0) := by
  decide

/-- C5 (amended).  What the dry run does guarantee: it never mutates the
store; it reports exactly the post-filter tasks as would-sync; its stale
report and stale count equal the real run's stale completions and count on
the same input; and the push reports are faithful — for every failure
oracle the Asana writer's calls are exactly the dry-run push report's
external values, and likewise for the Things writer when no write fails
(and then it does not abort). -/
theorem dry_run_amended (f : ExtField) (env : SyncEnv) (s : Store)
    (ts0 : List TaskData)
    (hf : env.fetch = .ok ts0) (hd : env.dryRun = true)
    (hu : (s.recs.map Rec.uuid).Nodup) :
    ((syncSource f env s).store = s) ∧
    ((syncSource f env s).wouldSync =
      (postFilter env ts0).map (fun t => t.description)) ∧
    ((syncSource f env s).staleReported =
      (syncSource f { env with dryRun := false } s).staleCompleted) ∧
    ((syncSource f env s).staleCount =
      (syncSource f { env with dryRun := false } s).staleCount) ∧
    (∀ fail, (syncCompletionsToAsana s fail).calls =
      (dryRunPushAsana s).map (extVal .asanaGid)) ∧
    ((syncCompletionsToThings s (fun _ => false)).calls =
      (dryRunPushThings s).map (extVal .things3Uuid)) ∧
    ((syncCompletionsToThings s (fun _ => false)).aborted = false) := by
  have hfR : ({ env with dryRun := false } : SyncEnv).fetch = .ok ts0 := hf
  have hreal := syncSource_real f { env with dryRun := false } s ts0 hfR rfl
  have hdry := syncSource_dry f env s ts0 hf hd
  obtain ⟨pre, news, heq, hf2, hnews⟩ :=
    reconLink_skel f ({ env with dryRun := false } : SyncEnv).depFail
      (postFilter { env with dryRun := false } ts0)
      (postFilter { env with dryRun := false } ts0) s []
      (reconcile f (postFilter { env with dryRun := false } ts0) s []).idMap
  have hnews2 : ∀ x ∈ news, x.status = TStatus.pending ∧
      ∃ v, truthyVal (recGet f x) = some v ∧ v ∈ fetchedIdsOf f ts0 := by
    intro x hx
    obtain ⟨hxst, v, hget, hv⟩ := hnews x hx
    have hv0 : v ∈ fetchedIdsOf f ts0 := mem_fetchedIdsOf_postFilter hv
    refine ⟨hxst, v, ?_, hv0⟩
    rw [hget]
    exact truthyVal_of_ne (mem_fetchedIdsOf_ne_empty hv0)
  have hent := stale_entries_pre_news f (fetchedIdsOf f ts0) s
    (linkPhase f ({ env with dryRun := false } : SyncEnv).depFail
      (postFilter { env with dryRun := false } ts0)
      (reconcile f (postFilter { env with dryRun := false } ts0) s []).idMap
      (reconcile f (postFilter { env with dryRun := false } ts0) s []).store).1
    pre news heq hf2 hnews2
  have hcnA : ((completedCandidates .asanaGid s).map Rec.uuid).Nodup := by
    refine List.Nodup.sublist ?_ hu
    exact List.Sublist.map Rec.uuid (List.filter_sublist s.recs)
  have hcnT : ((completedCandidates .things3Uuid s).map Rec.uuid).Nodup := by
    refine List.Nodup.sublist ?_ hu
    exact List.Sublist.map Rec.uuid (List.filter_sublist s.recs)
  refine ⟨?_, ?_, ?_, ?_, ?_, ?_, ?_⟩
  · rw [hdry]
    exact stalePhase_dry_store (fetchedIdsOf f ts0) (findAllPendingBySource f s) s
  · rw [hdry]
  · rw [hdry, hreal]
    have h1 := (stalePhase_report (fetchedIdsOf f ts0) true
      (findAllPendingBySource f s) s).1
    have h2 := (stalePhase_report (fetchedIdsOf f ts0) false
      (findAllPendingBySource f
        (linkPhase f ({ env with dryRun := false } : SyncEnv).depFail
          (postFilter { env with dryRun := false } ts0)
          (reconcile f (postFilter { env with dryRun := false } ts0) s []).idMap
          (reconcile f (postFilter { env with dryRun := false } ts0) s []).store).1)
      (linkPhase f ({ env with dryRun := false } : SyncEnv).depFail
        (postFilter { env with dryRun := false } ts0)
        (reconcile f (postFilter { env with dryRun := false } ts0) s []).idMap
        (reconcile f (postFilter { env with dryRun := false } ts0) s []).store).1).1
    show (stalePhase (fetchedIdsOf f ts0) true (findAllPendingBySource f s) s).2.1 = _
    rw [h1, h2, hent]
  · rw [hdry, hreal]
    have h1 := (stalePhase_report (fetchedIdsOf f ts0) true
      (findAllPendingBySource f s) s).2
    have h2 := (stalePhase_report (fetchedIdsOf f ts0) false
      (findAllPendingBySource f
        (linkPhase f ({ env with dryRun := false } : SyncEnv).depFail
          (postFilter { env with dryRun := false } ts0)
          (reconcile f (postFilter { env with dryRun := false } ts0) s []).idMap
          (reconcile f (postFilter { env with dryRun := false } ts0) s []).store).1)
      (linkPhase f ({ env with dryRun := false } : SyncEnv).depFail
        (postFilter { env with dryRun := false } ts0)
        (reconcile f (postFilter { env with dryRun := false } ts0) s []).idMap
        (reconcile f (postFilter { env with dryRun := false } ts0) s []).store).1).2
    show (stalePhase (fetchedIdsOf f ts0) true (findAllPendingBySource f s) s).2.2 = _
    rw [h1, h2, hent]
  · intro fail
    obtain ⟨-, -, h3, -, -⟩ :=
      pushAsanaGo_char fail s (completedCandidates .asanaGid s) s
        (fun r _ => rfl) hcnA
    show (pushAsanaGo fail (completedCandidates .asanaGid s) s).calls =
      (dryRunPushAsana s).map (extVal .asanaGid)
    rw [h3]
    rfl
  · exact (pushThingsGo_nofail s (completedCandidates .things3Uuid s) s
      (fun r _ => rfl) hcnT).1
  · exact (pushThingsGo_nofail s (completedCandidates .things3Uuid s) s
      (fun r _ => rfl) hcnT).2

/-- Witness for C5: on the concrete dry run the store is untouched, the
report lists the task, stale data agrees with the real run, and the push
reports match the writers' calls. -/
theorem dry_run_amended_witness :
    (envC5d.fetch = .ok [tdC5] ∧ envC5d.dryRun = true ∧
      (stC5.recs.map Rec.uuid).Nodup) ∧
    (((syncSource .asanaGid envC5d stC5).store = stC5) ∧
      ((syncSource .asanaGid envC5d stC5).wouldSync =
        (postFilter envC5d [tdC5]).map (fun t => t.description)) ∧
      ((syncSource .asanaGid envC5d stC5).staleReported =
        (syncSource .asanaGid { envC5d with dryRun := false } stC5).staleCompleted) ∧
      ((syncSource .asanaGid envC5d stC5).staleCount =
        (syncSource .asanaGid { envC5d with dryRun := false } stC5).staleCount) ∧
      (∀ fail, (syncCompletionsToAsana stC5 fail).calls =
        (dryRunPushAsana stC5).map (extVal .asanaGid)) ∧
      ((syncCompletionsToThings stC5 (fun _ => false)).calls =
        (dryRunPushThings stC5).map (extVal .things3Uuid)) ∧
      ((syncCompletionsToThings stC5 (fun _ => false)).aborted = false)) :=
  ⟨⟨rfl, rfl, by decide⟩,
    dry_run_amended .asanaGid envC5d stC5 [tdC5] rfl rfl (by decide)⟩

end TodoSync
